import Mathlib

/-!
Verification development for the octree streaming and decode engine of the
three-loader repository (files src/loading/octree-loader.ts and
src/workers/decoder-worker-internal.ts).

Modelling conventions:
* JavaScript numbers (IEEE-754 doubles) are modelled as exact rationals;
  the specification's claims about decoded values are stated "within
  floating-point tolerance", which licenses the ideal-arithmetic reading.
  Float32Array stores are likewise modelled as exact rationals.
* JavaScript BigInt values (byte offsets and sizes) are modelled as integers.
* A DataView over an ArrayBuffer is modelled as a list of bytes; reading a
  byte at an index is getD with default 0 reduced mod 256 (a DataView can
  only ever yield values 0..255 per byte).
* Fallible steps (a lookup of a missing getter, a malformed buffer) are
  modelled by Option, mirroring the JavaScript exception.
-/

namespace ThreeLoader

/-- A 3-component vector of rationals, modelling the three.js Vector3 values
(min, size) and the 3-entry scale/offset arrays handed to the decoder. -/
structure V3 where
  x : ℚ
  y : ℚ
  z : ℚ
deriving DecidableEq

/-- Byte at index i of a DataView, little-endian buffers. Out-of-range access
throws in JavaScript; theorems only evaluate in-range indices. The mod 256
records that a DataView byte is always in 0..255. -/
def byteAt (view : List ℕ) (i : ℕ) : ℕ :=
  view.getD i 0 % 256

/-- DataView.getUint8. -/
def getUint8 (view : List ℕ) (i : ℕ) : ℕ :=
  byteAt view i

/-- DataView.getUint16 with littleEndian = true. -/
def getUint16 (view : List ℕ) (i : ℕ) : ℕ :=
  byteAt view i + 256 * byteAt view (i + 1)

/-- DataView.getUint32 with littleEndian = true. -/
def getUint32 (view : List ℕ) (i : ℕ) : ℕ :=
  byteAt view i + 256 * byteAt view (i + 1) + 65536 * byteAt view (i + 2) +
    16777216 * byteAt view (i + 3)

/-- DataView.getInt8 (two's complement). -/
def getInt8 (view : List ℕ) (i : ℕ) : ℤ :=
  let u := getUint8 view i
  if u < 128 then (u : ℤ) else (u : ℤ) - 256

/-- DataView.getInt16 with littleEndian = true (two's complement). -/
def getInt16 (view : List ℕ) (i : ℕ) : ℤ :=
  let u := getUint16 view i
  if u < 32768 then (u : ℤ) else (u : ℤ) - 65536

/-- DataView.getInt32 with littleEndian = true (two's complement). -/
def getInt32 (view : List ℕ) (i : ℕ) : ℤ :=
  let u := getUint32 view i
  if u < 2147483648 then (u : ℤ) else (u : ℤ) - 4294967296

/-- Little-endian unsigned 64-bit read (helper for getBigInt64/getFloat64). -/
def getUint64 (view : List ℕ) (i : ℕ) : ℕ :=
  getUint32 view i + 4294967296 * getUint32 view (i + 4)

/-- DataView.getBigInt64 with littleEndian = true (two's complement). -/
def getBigInt64 (view : List ℕ) (i : ℕ) : ℤ :=
  let u := getUint64 view i
  if u < 9223372036854775808 then (u : ℤ) else (u : ℤ) - 18446744073709551616

/-- IEEE-754 binary32 value of a 32-bit pattern, as an exact rational.
Infinities and NaNs (exponent field 255) have no rational value and are
mapped to 0; no theorem in this file evaluates such a pattern. -/
def float32OfBits (u : ℕ) : ℚ :=
  let sgn : ℚ := if u / 2147483648 % 2 = 1 then -1 else 1
  let expField := u / 8388608 % 256
  let mant := u % 8388608
  if expField = 0 then
    sgn * ((mant : ℚ) / 8388608) * ((2 : ℚ) ^ (-(126 : ℤ)))
  else if expField = 255 then 0
  else
    sgn * (1 + (mant : ℚ) / 8388608) * ((2 : ℚ) ^ ((expField : ℤ) - 127))

/-- IEEE-754 binary64 value of a 64-bit pattern, as an exact rational.
Infinities and NaNs (exponent field 2047) are mapped to 0. -/
def float64OfBits (u : ℕ) : ℚ :=
  let sgn : ℚ := if u / 9223372036854775808 % 2 = 1 then -1 else 1
  let expField := u / 4503599627370496 % 2048
  let mant := u % 4503599627370496
  if expField = 0 then
    sgn * ((mant : ℚ) / 4503599627370496) * ((2 : ℚ) ^ (-(1022 : ℤ)))
  else if expField = 2047 then 0
  else
    sgn * (1 + (mant : ℚ) / 4503599627370496) * ((2 : ℚ) ^ ((expField : ℤ) - 1023))

/-- DataView.getFloat32 with littleEndian = true. -/
def getFloat32 (view : List ℕ) (i : ℕ) : ℚ :=
  float32OfBits (getUint32 view i)

/-- DataView.getFloat64 with littleEndian = true. -/
def getFloat64 (view : List ℕ) (i : ℕ) : ℚ :=
  float64OfBits (getUint64 view i)

/-- Conversion applied by a JavaScript Uint8Array store: truncate the number
toward zero, then reduce modulo 256 (ToUint8). Negative inputs never occur in
the decoder paths modelled here. -/
def jsToUint8 (q : ℚ) : ℕ :=
  (((if 0 ≤ q then ⌊q⌋ else ⌈q⌉) : ℤ) % 256).toNat

/-- An entry of pointAttributes.attributes as the decoder worker receives it:
name, the scalar type's name and byte width, the attribute's total byteSize
(numElements times the width) and its declared value range. -/
structure PAttr where
  name : String
  typeName : String
  typeSize : ℕ
  byteSize : ℕ
  rangeMin : ℚ
  rangeMax : ℚ
deriving DecidableEq

/-- A VectorDescriptor: a derived attribute assembled from named source
attributes (pointAttributes.vectors entries). -/
structure VDesc where
  name : String
  attributes : List String
deriving DecidableEq

/-- The getterMap of the decoder worker, defunctionalized: one tag per entry
of the map. The source comments out int64 and uint64, so those two type
names have no getter. -/
inductive Getter where
  | i8 | i16 | i32 | u8 | u16 | u32 | f32 | f64
deriving DecidableEq

/-- Reading one value through a getter tag (view.getInt8 and friends). -/
def Getter.read : Getter → List ℕ → ℕ → ℚ
  | .i8, v, i => (getInt8 v i : ℚ)
  | .i16, v, i => (getInt16 v i : ℚ)
  | .i32, v, i => (getInt32 v i : ℚ)
  | .u8, v, i => (getUint8 v i : ℚ)
  | .u16, v, i => (getUint16 v i : ℚ)
  | .u32, v, i => (getUint32 v i : ℚ)
  | .f32, v, i => getFloat32 v i
  | .f64, v, i => getFloat64 v i

/-- The decoder worker's getterMap: scalar type name to getter. int64 and
uint64 are absent, exactly as in the source (their entries are commented
out); looking them up yields undefined, and undefined.bind throws. -/
def getterFor (typeName : String) : Option Getter :=
  if typeName = "int8" then some .i8
  else if typeName = "int16" then some .i16
  else if typeName = "int32" then some .i32
  else if typeName = "uint8" then some .u8
  else if typeName = "uint16" then some .u16
  else if typeName = "uint32" then some .u32
  else if typeName = "float" then some .f32
  else if typeName = "double" then some .f64
  else none

/-- The typedArrayMapping of the decoder worker: the storage class used for
the precise buffer of each scalar type. The 64-bit integer kinds map to
Float64Array. -/
inductive StorageKind where
  | int8Arr | int16Arr | int32Arr | uint8Arr | uint16Arr | uint32Arr
  | float32Arr | float64Arr
deriving DecidableEq

/-- The typedArrayMapping table of the decoder worker. -/
def typedArrayMapping (typeName : String) : Option StorageKind :=
  if typeName = "int8" then some .int8Arr
  else if typeName = "int16" then some .int16Arr
  else if typeName = "int32" then some .int32Arr
  else if typeName = "int64" then some .float64Arr
  else if typeName = "uint8" then some .uint8Arr
  else if typeName = "uint16" then some .uint16Arr
  else if typeName = "uint32" then some .uint32Arr
  else if typeName = "uint64" then some .float64Arr
  else if typeName = "float" then some .float32Arr
  else if typeName = "double" then some .float64Arr
  else none

/-- The 32-cell-per-axis occupancy grid state of the decoder worker:
the grid array (cell index to counter) and numOccupiedCells. The grid is a
Uint32Array of 32768 cells; it is modelled as a total function that is 0
outside the touched cells. -/
structure GridState where
  grid : ℕ → ℕ
  occupied : ℕ

/-- The toIndex closure of the decoder worker, verbatim: no flooring of the
per-axis quotients and no lower clamp, only Math.min against gridSize - 1.
The result is therefore a rational, not necessarily an integer. -/
def toIndex (size : V3) (x y z : ℚ) : ℚ :=
  let dx := 32 * x / size.x
  let dy := 32 * y / size.y
  let dz := 32 * z / size.z
  let ix := min dx 31
  let iy := min dy 31
  let iz := min dz 31
  ix + iy * 32 + iz * 32 * 32

/-- One execution of the statements grid[index]++ / numOccupiedCells++.
In JavaScript, a Uint32Array read at a fractional or out-of-range index
yields undefined and the corresponding write is discarded, so the grid and
the occupied count change only when the index is an integer in [0, 32768);
otherwise count is NaN, which is not 0, and nothing is incremented. -/
def gridIncr (gs : GridState) (idx : ℚ) : GridState :=
  if idx.den = 1 ∧ 0 ≤ idx.num ∧ idx.num < 32768 then
    let c := idx.num.toNat
    { grid := Function.update gs.grid c (gs.grid c + 1),
      occupied := if gs.grid c = 0 then gs.occupied + 1 else gs.occupied }
  else gs

/-- The world-space coordinate of point j on one axis as the position branch
computes it: view.getInt32(pointOffset + attributeOffset + 4*axis, true)
times scale[axis], plus offset[axis], minus min[axis]. -/
def posCoord (view : List ℕ) (bpp ao : ℕ) (scaleA offsetA minA : ℚ) (j axis : ℕ) : ℚ :=
  (getInt32 view (j * bpp + ao + 4 * axis) : ℚ) * scaleA + offsetA - minA

/-- One iteration of the position loop: decode the three axes of point j,
fold the point into the occupancy grid, append the three floats. -/
def posStep (view : List ℕ) (bpp ao : ℕ) (scaleV offsetV minV sizeV : V3)
    (st : List ℚ × GridState) (j : ℕ) : List ℚ × GridState :=
  let x := posCoord view bpp ao scaleV.x offsetV.x minV.x j 0
  let y := posCoord view bpp ao scaleV.y offsetV.y minV.y j 1
  let z := posCoord view bpp ao scaleV.z offsetV.z minV.z j 2
  (st.1 ++ [x, y, z], gridIncr st.2 (toIndex sizeV x y z))

/-- The POSITION_CARTESIAN / position branch of the decoder worker: a loop
over the numPoints points producing the 3-per-point Float32 buffer and the
updated grid state. -/
def decodePosition (view : List ℕ) (bpp ao : ℕ) (scaleV offsetV minV sizeV : V3)
    (numPoints : ℕ) (gs : GridState) : List ℚ × GridState :=
  (List.range numPoints).foldl (posStep view bpp ao scaleV offsetV minV sizeV) ([], gs)

/-- One stored color channel: r > 255 ? r / 256 : r, written through a
Uint8Array store. The division is JavaScript number division, hence exact
rational division before the store truncates. -/
def rgbaStore (v : ℕ) : ℕ :=
  jsToUint8 (if 255 < v then (v : ℚ) / 256 else (v : ℚ))

/-- The RGBA / rgba branch of the decoder worker: per point, read three
little-endian uint16 channels at offsets 0, 2, 4 and store them rescaled;
the alpha byte of the 4-byte-per-point buffer is left at its zero
initialization. -/
def decodeRgba (view : List ℕ) (bpp ao : ℕ) (numPoints : ℕ) : List ℕ :=
  (List.range numPoints).foldl
    (fun cs j =>
      let r := getUint16 view (j * bpp + ao + 0)
      let g := getUint16 view (j * bpp + ao + 2)
      let b := getUint16 view (j * bpp + ao + 4)
      cs ++ [rgbaStore r, rgbaStore g, rgbaStore b, 0])
    []

/-- The result of the generic-attribute branch: the 32-bit-float display
buffer, the precise buffer in the attribute's own storage class, and the
offset/scale pair packed alongside them. -/
structure GenericOut where
  display : List ℚ
  precise : List ℚ
  offset : ℚ
  scale : ℚ
deriving DecidableEq

/-- The offset and scale the generic branch computes: for types wider than
4 bytes, offset = rangeMin and scale = 1 / (rangeMax - rangeMin) to pack the
values into 32-bit floats; otherwise offset 0 and scale 1. -/
def genericOffsetScale (attr : PAttr) : ℚ × ℚ :=
  if 4 < attr.typeSize then (attr.rangeMin, 1 / (attr.rangeMax - attr.rangeMin))
  else (0, 1)

/-- The generic-attribute branch of the decoder worker. Looking up the
getter for the attribute's type name fails for int64/uint64 (the entries are
commented out in the source), which in JavaScript throws when .bind is
called on undefined; this is the none case. Otherwise each point's value is
read with the getter, the display value is (value - offset) * scale, and
the precise buffer keeps the value itself. -/
def decodeGeneric (view : List ℕ) (bpp ao : ℕ) (attr : PAttr) (numPoints : ℕ) :
    Option GenericOut :=
  match getterFor attr.typeName with
  | none => none
  | some g =>
    let os := genericOffsetScale attr
    let vals := (List.range numPoints).map (fun j => g.read view (j * bpp + ao))
    some { display := vals.map (fun v => (v - os.1) * os.2),
           precise := vals,
           offset := os.1,
           scale := os.2 }

/-- A named decoded buffer of the worker's attributeBuffers map. -/
inductive ABuf where
  | pos (positions : List ℚ)
  | rgba (colors : List ℕ)
  | generic (out : GenericOut)
  | indices (idx : List ℕ)
  | vec (values : List ℚ)
deriving DecidableEq

/-- The inner loop of the attribute-vectors block for one source attribute:
for each point j, read back the already-decoded display value and write
value / scale + offset at position j * numVectorElements + iElement of the
vector buffer. -/
def vectorWrite (numPoints stride iE : ℕ) (vals : List ℚ) (off sc : ℚ)
    (buf : List ℚ) : List ℚ :=
  (List.range numPoints).foldl
    (fun b j => b.set (j * stride + iE) (vals.getD j 0 / sc + off)) buf

/-- The attribute-vectors block for one VectorDescriptor: starting from the
zero-initialized buffer of numVectorElements * numPoints floats, process the
source attributes in order. A source that is missing from attributeBuffers
makes the JavaScript destructuring throw (none); a source that is not a
generic scalar buffer has no offset/scale fields and would poison the
output with NaN, which has no rational counterpart and is likewise modelled
as none (no claim exercises that path). -/
def buildVector (buffers : List (String × ABuf)) (numPoints : ℕ)
    (srcs : List String) : Option (List ℚ) :=
  let stride := srcs.length
  let start : Option (List ℚ × ℕ) := some (List.replicate (stride * numPoints) 0, 0)
  (srcs.foldl
    (fun acc sourceName =>
      acc.bind (fun st =>
        match buffers.lookup sourceName with
        | some (.generic out) =>
          some (vectorWrite numPoints stride st.2 out.display out.offset out.scale st.1,
                st.2 + 1)
        | _ => none))
    start).map (·.1)

/-- The message handed to the decoder worker by NodeLoader.load: the raw
byte buffer, the schema (attributes and vector descriptors), the dataset
scale and offset, the node's world-space minimum corner and size, and the
point count. -/
structure DecoderInput where
  buffer : List ℕ
  attributes : List PAttr
  vectors : List VDesc
  scale : V3
  offset : V3
  min : V3
  size : V3
  numPoints : ℕ

/-- The result of one decode: the attributeBuffers map in insertion order,
the occupancy grid state, and the density (the worker's occupancy value).
Duplicate attribute names are assumed absent (a JavaScript object key would
be overwritten; lookup here returns the first binding). -/
structure DecodeOut where
  buffers : List (String × ABuf)
  grid : ℕ → ℕ
  occupied : ℕ
  density : ℚ

/-- Dispatch for one attribute of the schema loop of handleMessage, at byte
cursor ao within the record. Position and rgba are matched by their reserved
names; everything else takes the generic branch, whose missing int64/uint64
getter makes the whole decode throw (none). -/
def decodeAttr (view : List ℕ) (bpp : ℕ) (inp : DecoderInput)
    (st : List (String × ABuf) × GridState × ℕ) (attr : PAttr) :
    Option (List (String × ABuf) × GridState × ℕ) :=
  let ao := st.2.2
  if attr.name = "POSITION_CARTESIAN" ∨ attr.name = "position" then
    let r := decodePosition view bpp ao inp.scale inp.offset inp.min inp.size
      inp.numPoints st.2.1
    some (st.1 ++ [(attr.name, ABuf.pos r.1)], r.2, ao + attr.byteSize)
  else if attr.name = "RGBA" ∨ attr.name = "rgba" then
    some (st.1 ++ [(attr.name, ABuf.rgba (decodeRgba view bpp ao inp.numPoints))],
      st.2.1, ao + attr.byteSize)
  else
    (decodeGeneric view bpp ao attr inp.numPoints).map
      (fun out => (st.1 ++ [(attr.name, ABuf.generic out)], st.2.1, ao + attr.byteSize))

/-- The decoder worker's handleMessage: sum the byte sizes into
bytesPerPoint, run the per-attribute loop threading the byte cursor and the
occupancy grid, compute the density numPoints / numOccupiedCells, append the
INDICES buffer, then build each vector descriptor's buffer. A zero occupied
count gives density Infinity in JavaScript; in this rational model the
division yields 0, and no claim constrains the density in that case. -/
def handleMessage (inp : DecoderInput) : Option DecodeOut :=
  let view := inp.buffer
  let bpp := (inp.attributes.map (·.byteSize)).sum
  let st0 : List (String × ABuf) × GridState × ℕ := ([], ⟨fun _ => 0, 0⟩, 0)
  (inp.attributes.foldl (fun acc attr => acc.bind (fun st => decodeAttr view bpp inp st attr))
      (some st0)).bind
    (fun st =>
      let occupancy : ℚ := (inp.numPoints : ℚ) / (st.2.1.occupied : ℚ)
      let withIdx := st.1 ++ [("INDICES", ABuf.indices (List.range inp.numPoints))]
      (inp.vectors.foldl
          (fun acc vd =>
            acc.bind (fun bufs =>
              (buildVector bufs inp.numPoints vd.attributes).map
                (fun vbuf => bufs ++ [(vd.name, ABuf.vec vbuf)])))
          (some withIdx)).map
        (fun bufs => { buffers := bufs, grid := st.2.1.grid,
                       occupied := st.2.1.occupied, density := occupancy }))

/-- An OctreeGeometryNode, restricted to the fields the loader reads or
writes. The name is the path of child indices from the root; children are
8 slots holding indices into the work-list arena (the JavaScript object
graph is modelled arena-style, a node's position in the parseHierarchy
work list being its index); parent is a back index. The bounding box and
sphere (computed by the external createChildAABB utility, not part of the
two source files) are omitted: no claim constrains them. -/
structure HNode where
  name : List ℕ
  spacing : ℚ
  level : ℕ
  nodeType : ℕ
  numPoints : ℕ
  byteOffset : ℤ
  byteSize : ℤ
  hierarchyByteOffset : ℤ
  hierarchyByteSize : ℤ
  children : List (Option ℕ)
  parent : Option ℕ
  loading : Bool
  loaded : Bool
  failed : Bool
  hasGeometry : Bool
  density : ℚ
deriving DecidableEq

/-- A fresh OctreeGeometryNode as the constructor plus field initializers
leave it (loaded/loading/failed false, no children, no geometry). -/
def freshNode (name : List ℕ) : HNode :=
  { name := name, spacing := 0, level := 0, nodeType := 0, numPoints := 0,
    byteOffset := 0, byteSize := 0, hierarchyByteOffset := 0,
    hierarchyByteSize := 0, children := List.replicate 8 none, parent := none,
    loading := false, loaded := false, failed := false, hasGeometry := false,
    density := 0 }

/-- One 22-byte hierarchy record: type tag, child mask, point count, byte
offset, byte size. -/
structure HRecord where
  type : ℕ
  childMask : ℕ
  numPoints : ℕ
  byteOffset : ℤ
  byteSize : ℤ
deriving DecidableEq

/-- Reading record i of the hierarchy buffer: getUint8 at 22i and 22i+1,
getUint32 (little-endian) at 22i+2, getBigInt64 at 22i+6 and 22i+14. -/
def readRecord (buf : List ℕ) (i : ℕ) : HRecord :=
  { type := getUint8 buf (i * 22),
    childMask := getUint8 buf (i * 22 + 1),
    numPoints := getUint32 buf (i * 22 + 2),
    byteOffset := getBigInt64 buf (i * 22 + 6),
    byteSize := getBigInt64 buf (i * 22 + 14) }

/-- The record list of a hierarchy buffer whose length divides into records. -/
def hierRecords (buf : List ℕ) : List HRecord :=
  (List.range (buf.length / 22)).map (readRecord buf)

/-- The child node synthesized for bit k of a record's child mask: name is
the parent's name extended by the digit, spacing is half the parent's,
level is one deeper, and the parent back link is the parent's arena index. -/
def mkChild (cur : HNode) (i k : ℕ) : HNode :=
  { freshNode (cur.name ++ [k]) with
    spacing := cur.spacing / 2, level := cur.level + 1, parent := some i }

/-- Appending one child for bit k: slot k of the parent's children receives
the index the child will occupy (the current arena length), and the child is
pushed onto the work list. -/
def appendChild (st : List HNode) (i k : ℕ) : List HNode :=
  match st.get? i with
  | none => st
  | some cur =>
    st.set i { cur with children := cur.children.set k (some st.length) } ++
      [mkChild cur i k]

/-- The child-creation loop of parseHierarchy over the set bits of the
child mask, in ascending bit order (the source iterates childIndex over
0..7 and skips clear bits, which leaves the state untouched, so only the
list of set bits matters). -/
def childLoop (st : List HNode) (i : ℕ) : List ℕ → List HNode
  | [] => st
  | k :: ks => childLoop (appendChild st i k) i ks

/-- The set bits of an 8-bit child mask, in ascending order. -/
def maskBits (mask : ℕ) : List ℕ :=
  (List.range 8).filter (fun k => mask.testBit k)

/-- The field updates a record applies to the node at its work-list
position: a proxy node being expanded receives the point byte range; a
proxy-typed record receives a further hierarchy byte range; any other
record receives the point byte range; finally the node takes the record's
type. -/
def recUpdate (current : HNode) (r : HRecord) : HNode :=
  let current1 :=
    if current.nodeType = 2 then
      { current with byteOffset := r.byteOffset, byteSize := r.byteSize,
                     numPoints := r.numPoints }
    else if r.type = 2 then
      { current with hierarchyByteOffset := r.byteOffset,
                     hierarchyByteSize := r.byteSize, numPoints := r.numPoints }
    else
      { current with byteOffset := r.byteOffset, byteSize := r.byteSize,
                     numPoints := r.numPoints }
  { current1 with nodeType := r.type }

/-- Processing record r against work-list position i of parseHierarchy:
apply the record's field updates to nodes[i], then, unless the record's
type is proxy, create one child per set mask bit. nodes[i] being absent is
the JavaScript TypeError (none); it cannot occur on a well-formed buffer. -/
def applyRecord (st : List HNode) (i : ℕ) (r : HRecord) : Option (List HNode) :=
  match st.get? i with
  | none => none
  | some current =>
    let current2 := recUpdate current r
    let st1 := st.set i current2
    if current2.nodeType = 2 then some st1
    else some (childLoop st1 i (maskBits r.childMask))

/-- The record loop of parseHierarchy, record position i onward. -/
def parseRecords (st : List HNode) (i : ℕ) : List HRecord → Option (List HNode)
  | [] => some st
  | r :: rs => (applyRecord st i r).bind (fun st1 => parseRecords st1 (i + 1) rs)

/-- The record loop with its state at the moment of a failure: in
JavaScript the node mutations are in place, so when the loop throws (a
missing work-list entry, i.e. more records than synthesized nodes) the
records already processed stay applied. Returns the work list as the loop
left it and whether the loop ran to completion; the TypeError at nodes[i]
fires on the first field read, before this record mutates anything. -/
def parseRecordsP (st : List HNode) (i : ℕ) : List HRecord → List HNode × Bool
  | [] => (st, true)
  | r :: rs =>
    match applyRecord st i r with
    | none => (st, false)
    | some st1 => parseRecordsP st1 (i + 1) rs

/-- NodeLoader.parseHierarchy. The source computes numNodes as
byteLength / 22 and passes it to the Array constructor, which throws a
RangeError whenever the quotient is fractional; that is the none case. The
JavaScript exception aborts mid-function before any node mutation in that
case (the Array is allocated before the loop). -/
def parseHierarchy (node : HNode) (buf : List ℕ) : Option (List HNode) :=
  if 22 ∣ buf.length then parseRecords [node] 0 (hierRecords buf) else none

/-- The environment of one NodeLoader.load call: the bytes the hierarchy
range fetch would deliver (none = the fetch rejects), whether the point
payload range fetch resolves, and the worker's reply (none = the worker
never posts a result; the loader installs no onerror handler, so a decode
failure produces no callback at all). -/
structure LoadEnv where
  hierarchyBytes : Option (List ℕ)
  payloadOk : Bool
  workerResult : Option ℚ

/-- NodeLoader.load, modelled on the node itself (the hierarchy step
mutates the node as work-list entry 0; descendant nodes created by the
parse are not tracked here). Returns the node's final state and the number
of range-fetch calls issued. The guard is the source's
node.loading || node.loading — the loaded flag is never consulted. The
hierarchy step mirrors the in-place mutation of the JavaScript node: a
rejected fetch or a fractional record count leaves the node as it was,
while a parse that throws mid-loop leaves the mutations of the records
already processed on the node; the catch block then sets loaded and
loading to false on that node and touches nothing else. -/
def load (node : HNode) (env : LoadEnv) : HNode × ℕ :=
  if node.loading || node.loading then (node, 0)
  else
    let node1 := { node with loading := true }
    let hstep : Option HNode × HNode × ℕ :=
      if node1.nodeType = 2 then
        match env.hierarchyBytes with
        | none => (none, node1, 1)
        | some buf =>
          if 22 ∣ buf.length then
            let res := parseRecordsP [node1] 0 (hierRecords buf)
            let node2 := res.1.head?.getD node1
            (if res.2 then some node2 else none, node2, 1)
          else (none, node1, 1)
      else (some node1, node1, 0)
    match hstep with
    | (none, nodeF, c) => ({ nodeF with loaded := false, loading := false }, c)
    | (some node2, _, c) =>
      let fetchAndCount : Bool × ℕ :=
        if node2.byteSize = 0 then (true, c) else (env.payloadOk, c + 1)
      if fetchAndCount.1 = false then
        ({ node2 with loaded := false, loading := false }, fetchAndCount.2)
      else
        match env.workerResult with
        | none => (node2, fetchAndCount.2)
        | some density =>
          ({ node2 with density := density, hasGeometry := true,
                        loaded := true, loading := false, failed := false },
           fetchAndCount.2)

/-- A geometry-node tree for the disposal model: the per-node fields that
OctreeGeometryNode.dispose reads or writes (whether a decoded geometry is
attached, whether a parent exists, the loaded flag, the number of pending
one-time dispose handlers) plus the non-null children in slot order. -/
inductive GTree where
  | node (hasGeometry : Bool) (hasParent : Bool) (loaded : Bool)
         (handlers : ℕ) (children : List GTree)

/-- The children of a geometry-node tree. -/
def GTree.children : GTree → List GTree
  | .node _ _ _ _ cs => cs

/-- The pending one-time dispose handler count of the tree's root node. -/
def GTree.handlers : GTree → ℕ
  | .node _ _ _ h _ => h

/-- Whether the tree's root node has an attached decoded geometry. -/
def GTree.hasGeometry : GTree → Bool
  | .node g _ _ _ _ => g

/-- Whether the tree's root node has a parent. -/
def GTree.hasParent : GTree → Bool
  | .node _ p _ _ _ => p

mutual

/-- The number of nodes of a geometry-node tree. -/
def GTree.size : GTree → ℕ
  | .node _ _ _ _ cs => 1 + sizeListG cs

/-- The total number of nodes of a list of geometry-node trees. -/
def sizeListG : List GTree → ℕ
  | [] => 0
  | t :: ts => t.size + sizeListG ts

end

mutual

/-- The nodes of a whole tree, root first. -/
def GTree.allNodes : GTree → List GTree
  | .node g p l h cs => .node g p l h cs :: allNodesList cs

/-- The nodes of a list of trees. -/
def allNodesList : List GTree → List GTree
  | [] => []
  | t :: ts => t.allNodes ++ allNodesList ts

end

/-- The combined weight of a traversal stack, used to justify termination of
the while loop of OctreeGeometryNode.traverse. -/
def stackWeight (l : List GTree) : ℕ :=
  (l.map GTree.size).sum

theorem stackWeight_append (l₁ l₂ : List GTree) :
    stackWeight (l₁ ++ l₂) = stackWeight l₁ + stackWeight l₂ := by
  simp [stackWeight]

theorem stackWeight_eq_sizeListG (l : List GTree) : stackWeight l = sizeListG l := by
  induction l with
  | nil => simp [stackWeight, sizeListG]
  | cons t ts ih =>
    simp only [stackWeight, List.map_cons, List.sum_cons] at *
    rw [ih, sizeListG]

/-- The while loop of OctreeGeometryNode.traverse: pop the last element of
the stack, visit it, push its (non-null) children, until the stack is
empty. Returns the visited nodes in visit order. -/
def traverseLoop (stack : List GTree) : List GTree :=
  match _h : stack.getLast? with
  | none => []
  | some current => current :: traverseLoop (stack.dropLast ++ current.children)
termination_by stackWeight stack
decreasing_by
  have hne : stack ≠ [] := by
    intro he
    rw [he] at _h
    simp at _h
  have hsplit : stack.dropLast ++ [stack.getLast hne] = stack :=
    List.dropLast_append_getLast hne
  have hcur : stack.getLast hne = current := by
    have hq := List.getLast?_eq_getLast stack hne
    rw [hq] at _h
    exact Option.some.inj _h
  have hw : stackWeight stack = stackWeight stack.dropLast + current.size := by
    conv_lhs => rw [← hsplit]
    rw [stackWeight_append, hcur]
    simp [stackWeight]
  have hlt : stackWeight current.children < current.size := by
    cases current with
    | node g p l hnd cs =>
      rw [stackWeight_eq_sizeListG]
      simp only [GTree.children, GTree.size]
      omega
  rw [stackWeight_append, hw]
  omega

/-- OctreeGeometryNode.traverse: the stack is seeded with the node itself
only when includeSelf is passed as true; the source declares includeSelf as
an optional parameter with no default, so omitting it leaves the stack
empty. -/
def GTree.traverse (t : GTree) (includeSelf : Bool) : List GTree :=
  traverseLoop (if includeSelf then [t] else [])

/-- OctreeGeometryNode.dispose on a single node: a node without geometry or
without a parent returns immediately; otherwise the geometry is released,
loaded is cleared, and every one-time handler runs and the handler list is
emptied. Result: the node afterwards, and how many handlers ran. -/
def nodeDispose : GTree → GTree × ℕ
  | .node g p l h cs =>
    if !g || !p then (.node g p l h cs, 0)
    else (.node false p false 0 cs, h)

/-- OctreeGeometry.dispose restricted to its node sweep: it calls
this.root?.traverse(node => node.dispose()), i.e. traverse with includeSelf
omitted, and disposes exactly the visited nodes. Returns the visited nodes
and the total number of one-time handlers that ran. -/
def geometryDispose (root : GTree) : List GTree × ℕ :=
  let visited := root.traverse false
  (visited, (visited.map (fun n => (nodeDispose n).2)).sum)

section ListHelpers

variable {β : Type}

theorem foldl_append_chunks (f : ℕ → List β) (l : List ℕ) (init : List β) :
    l.foldl (fun acc j => acc ++ f j) init = init ++ l.flatMap f := by
  induction l generalizing init with
  | nil => simp
  | cons a t ih => simp [ih]

theorem flatMapRange_length (f : ℕ → List β) (c n : ℕ) (hc : ∀ j, (f j).length = c) :
    ((List.range n).flatMap f).length = n * c := by
  induction n with
  | zero => simp
  | succ m ih =>
    rw [List.range_succ]
    simp only [List.flatMap_append, List.length_append, ih, List.flatMap_cons,
      List.flatMap_nil, List.append_nil, hc]
    ring

theorem flatMapRange_getElem (f : ℕ → List β) (c n j i : ℕ) (hc : ∀ j, (f j).length = c)
    (hj : j < n) (hi : i < c) :
    ((List.range n).flatMap f)[j * c + i]? = (f j)[i]? := by
  induction n with
  | zero => omega
  | succ m ih =>
    rw [List.range_succ]
    simp only [List.flatMap_append, List.flatMap_cons, List.flatMap_nil, List.append_nil]
    rcases Nat.lt_or_ge j m with hjm | hjm
    · rw [List.getElem?_append_left, ih hjm]
      rw [flatMapRange_length f c m hc]
      calc j * c + i < j * c + c := by omega
        _ = (j + 1) * c := by ring
        _ ≤ m * c := Nat.mul_le_mul_right c (by omega)
    · have hjm2 : j = m := by omega
      subst hjm2
      rw [List.getElem?_append_right]
      · rw [flatMapRange_length f c j hc]
        congr 1
        omega
      · rw [flatMapRange_length f c j hc]
        omega

end ListHelpers

/-- A nonnegative rational passed through a Uint8Array store truncates to its
integer floor reduced mod 256. -/
theorem jsToUint8_natCast (v : ℕ) (hv : v < 256) : jsToUint8 (v : ℚ) = v := by
  unfold jsToUint8
  rw [if_pos (by positivity), Int.floor_natCast]
  omega

/-- The Uint8Array store of v / 256 for v < 65536 is exactly natural
division by 256. -/
theorem jsToUint8_div256 (v : ℕ) (hv : v < 65536) : jsToUint8 ((v : ℚ) / 256) = v / 256 := by
  unfold jsToUint8
  have h0 : (0 : ℚ) ≤ (v : ℚ) / 256 := by positivity
  rw [if_pos h0]
  have hf : ⌊(v : ℚ) / 256⌋ = ((v / 256 : ℕ) : ℤ) := by
    rw [← Int.natCast_floor_eq_floor h0]
    have hq := Nat.floor_div_eq_div (α := ℚ) v 256
    norm_cast
  rw [hf]
  omega

/-- The stored channel value as a function of the 16-bit source value:
above 255 it is the natural-division quotient by 256, otherwise the value
itself. -/
theorem rgbaStore_eq (v : ℕ) (hv : v < 65536) :
    rgbaStore v = if 255 < v then v / 256 else v := by
  unfold rgbaStore
  by_cases h : 255 < v
  · rw [if_pos h, if_pos h, jsToUint8_div256 v hv]
  · rw [if_neg h, if_neg h, jsToUint8_natCast v (by omega)]

/-- Every getUint16 read is a 16-bit value. -/
theorem getUint16_lt (view : List ℕ) (i : ℕ) : getUint16 view i < 65536 := by
  unfold getUint16 byteAt
  have h1 := Nat.mod_lt (view.getD i 0) (y := 256) (by omega)
  have h2 := Nat.mod_lt (view.getD (i + 1) 0) (y := 256) (by omega)
  omega

/-- The 4-byte chunk the rgba branch appends for point j. -/
def rgbaQuad (view : List ℕ) (bpp ao j : ℕ) : List ℕ :=
  [rgbaStore (getUint16 view (j * bpp + ao + 0)),
   rgbaStore (getUint16 view (j * bpp + ao + 2)),
   rgbaStore (getUint16 view (j * bpp + ao + 4)), 0]

theorem decodeRgba_eq_flatMap (view : List ℕ) (bpp ao numPoints : ℕ) :
    decodeRgba view bpp ao numPoints = (List.range numPoints).flatMap (rgbaQuad view bpp ao) := by
  unfold decodeRgba
  rw [show (fun (cs : List ℕ) j =>
        cs ++ [rgbaStore (getUint16 view (j * bpp + ao + 0)),
               rgbaStore (getUint16 view (j * bpp + ao + 2)),
               rgbaStore (getUint16 view (j * bpp + ao + 4)), 0])
      = fun cs j => cs ++ rgbaQuad view bpp ao j from rfl]
  rw [foldl_append_chunks]
  simp

/-- C9: for every decoded 16-bit color channel value v, the stored 8-bit
channel equals v / 256 truncated when v > 255 and v unchanged when v ≤ 255;
in particular 512 decodes to 2 and 200 decodes to 200. The rgba branch
produces 4 bytes per point, reading the three channels at byte offsets 0,
2, 4 of the attribute and leaving alpha at 0. -/
theorem C9_color_rescale (view : List ℕ) (bpp ao numPoints j : ℕ) (hj : j < numPoints) :
    (decodeRgba view bpp ao numPoints).length = 4 * numPoints ∧
    (∀ ch, ch < 3 →
      (decodeRgba view bpp ao numPoints)[j * 4 + ch]? =
        some (if 255 < getUint16 view (j * bpp + ao + 2 * ch)
              then getUint16 view (j * bpp + ao + 2 * ch) / 256
              else getUint16 view (j * bpp + ao + 2 * ch))) ∧
    rgbaStore 512 = 2 ∧ rgbaStore 200 = 200 := by
  have hc : ∀ k, (rgbaQuad view bpp ao k).length = 4 := fun k => rfl
  refine ⟨?_, ?_, (rgbaStore_eq 512 (by omega)).trans (by decide),
          (rgbaStore_eq 200 (by omega)).trans (by decide)⟩
  · rw [decodeRgba_eq_flatMap, flatMapRange_length _ 4 _ hc, Nat.mul_comm]
  · intro ch hch
    rw [decodeRgba_eq_flatMap, flatMapRange_getElem _ 4 _ _ _ hc hj (by omega)]
    interval_cases ch
    · simpa [rgbaQuad] using rgbaStore_eq _ (getUint16_lt view (j * bpp + ao + 0))
    · simpa [rgbaQuad] using rgbaStore_eq _ (getUint16_lt view (j * bpp + ao + 2))
    · simpa [rgbaQuad] using rgbaStore_eq _ (getUint16_lt view (j * bpp + ao + 4))

/-- C9 witness: one point whose stored channels are 512, 200, 0; the decoded
bytes are 2 and 200. -/
theorem C9_color_rescale_witness :
    (decodeRgba [0, 2, 200, 0, 0, 0] 6 0 1)[0]? = some 2 ∧
    (decodeRgba [0, 2, 200, 0, 0, 0] 6 0 1)[1]? = some 200 := by
  have h := C9_color_rescale [0, 2, 200, 0, 0, 0] 6 0 1 0 (by decide)
  exact ⟨((h.2.1 0 (by decide)).trans (by decide)),
         ((h.2.1 1 (by decide)).trans (by decide))⟩

/-- The load-state flags of a node (loading, loaded, failed, geometry,
density): the fields parseHierarchy never writes. -/
def flags (n : HNode) : Bool × Bool × Bool × Bool × ℚ :=
  (n.loading, n.loaded, n.failed, n.hasGeometry, n.density)

theorem flags_appendChild (st : List HNode) (i k j : ℕ) (cur : HNode)
    (h : st[j]? = some cur) :
    ∃ c2, (appendChild st i k)[j]? = some c2 ∧ flags c2 = flags cur := by
  unfold appendChild
  have hj : j < st.length := by
    by_contra hge
    rw [List.getElem?_eq_none (by omega)] at h
    exact Option.noConfusion h
  cases hsti : st.get? i with
  | none => exact ⟨cur, h, rfl⟩
  | some curi =>
    rw [List.getElem?_append_left (by simpa using hj)]
    by_cases hij : i = j
    · subst hij
      rw [List.getElem?_set_self (by omega)]
      rw [List.get?_eq_getElem?] at hsti
      rw [hsti] at h
      exact ⟨_, rfl, by simp [flags, Option.some.inj h]⟩
    · rw [List.getElem?_set_ne hij]
      exact ⟨cur, h, rfl⟩

theorem flags_childLoop (ks : List ℕ) (st : List HNode) (i j : ℕ) (cur : HNode)
    (h : st[j]? = some cur) :
    ∃ c2, (childLoop st i ks)[j]? = some c2 ∧ flags c2 = flags cur := by
  induction ks generalizing st cur with
  | nil => exact ⟨cur, h, rfl⟩
  | cons k ks ih =>
    obtain ⟨c1, h1, hf1⟩ := flags_appendChild st i k j cur h
    obtain ⟨c2, h2, hf2⟩ := ih (appendChild st i k) c1 h1
    exact ⟨c2, h2, hf2.trans hf1⟩

theorem flags_recUpdate (current : HNode) (r : HRecord) :
    flags (recUpdate current r) = flags current := by
  unfold recUpdate flags
  split
  · rfl
  · split <;> rfl

theorem flags_applyRecord (st st2 : List HNode) (i : ℕ) (r : HRecord)
    (h : applyRecord st i r = some st2) (j : ℕ) (cur : HNode)
    (hj : st[j]? = some cur) :
    ∃ c2, st2[j]? = some c2 ∧ flags c2 = flags cur := by
  unfold applyRecord at h
  cases hsti : st.get? i with
  | none => rw [hsti] at h; exact Option.noConfusion h
  | some current =>
    rw [hsti] at h
    dsimp only at h
    have hset : ∃ c3, (st.set i (recUpdate current r))[j]? = some c3 ∧
        flags c3 = flags cur := by
      by_cases hij : i = j
      · subst hij
        have hj2 : i < st.length := by
          by_contra hge
          rw [List.getElem?_eq_none (by omega)] at hj
          exact Option.noConfusion hj
        rw [List.get?_eq_getElem?] at hsti
        rw [hsti] at hj
        refine ⟨recUpdate current r, List.getElem?_set_self (by omega), ?_⟩
        rw [flags_recUpdate, Option.some.inj hj]
      · exact ⟨cur, by rw [List.getElem?_set_ne hij]; exact hj, rfl⟩
    obtain ⟨c3, hc3, hf3⟩ := hset
    split at h
    · cases Option.some.inj h
      exact ⟨c3, hc3, hf3⟩
    · cases Option.some.inj h
      obtain ⟨c4, hc4, hf4⟩ := flags_childLoop (maskBits r.childMask) _ i j c3 hc3
      exact ⟨c4, hc4, hf4.trans hf3⟩

theorem flags_parseRecords (rs : List HRecord) (st st2 : List HNode) (i : ℕ)
    (h : parseRecords st i rs = some st2) (j : ℕ) (cur : HNode)
    (hj : st[j]? = some cur) :
    ∃ c2, st2[j]? = some c2 ∧ flags c2 = flags cur := by
  induction rs generalizing st i cur with
  | nil =>
    cases Option.some.inj h
    exact ⟨cur, hj, rfl⟩
  | cons r rs ih =>
    unfold parseRecords at h
    cases ha : applyRecord st i r with
    | none => rw [ha] at h; exact Option.noConfusion h
    | some st1 =>
      rw [ha] at h
      obtain ⟨c1, h1, hf1⟩ := flags_applyRecord st st1 i r ha j cur hj
      obtain ⟨c2, h2, hf2⟩ := ih st1 (i + 1) h c1 h1
      exact ⟨c2, h2, hf2.trans hf1⟩

/-- The Option-valued record loop and the partial-state record loop agree:
the loop completes exactly when the flag is true, and then the final states
coincide. -/
theorem parseRecords_eq_P (rs : List HRecord) : ∀ (st : List HNode) (i : ℕ),
    parseRecords st i rs =
      if (parseRecordsP st i rs).2 then some (parseRecordsP st i rs).1 else none := by
  induction rs with
  | nil => intro st i; rfl
  | cons r rs ih =>
    intro st i
    cases ha : applyRecord st i r with
    | none => simp [parseRecords, parseRecordsP, ha]
    | some st1 =>
      simp only [parseRecords, parseRecordsP, ha, Option.some_bind]
      exact ih st1 (i + 1)

theorem flags_parseRecordsP (rs : List HRecord) : ∀ (st : List HNode) (i j : ℕ)
    (cur : HNode), st[j]? = some cur →
    ∃ c2, (parseRecordsP st i rs).1[j]? = some c2 ∧ flags c2 = flags cur := by
  induction rs with
  | nil => intro st i j cur hj; exact ⟨cur, hj, rfl⟩
  | cons r rs ih =>
    intro st i j cur hj
    cases ha : applyRecord st i r with
    | none =>
      simp only [parseRecordsP, ha]
      exact ⟨cur, hj, rfl⟩
    | some st1 =>
      simp only [parseRecordsP, ha]
      obtain ⟨c1, h1, hf1⟩ := flags_applyRecord st st1 i r ha j cur hj
      obtain ⟨c2, h2, hf2⟩ := ih st1 (i + 1) j c1 h1
      exact ⟨c2, h2, hf2.trans hf1⟩

theorem flags_parseHierarchy (node : HNode) (buf : List ℕ) (arena : List HNode)
    (h : parseHierarchy node buf = some arena) (n0 : HNode)
    (h0 : arena.head? = some n0) : flags n0 = flags node := by
  unfold parseHierarchy at h
  split at h
  · obtain ⟨c2, hc2, hf⟩ := flags_parseRecords (hierRecords buf) [node] arena 0 h 0 node rfl
    rw [List.head?_eq_getElem?, hc2] at h0
    rw [← Option.some.inj h0]
    exact hf
  · exact Option.noConfusion h

/-- C1: the claim says a load on a node already loading or loaded is a
no-op with no fetch. The source guard reads node.loading || node.loading
(the loaded flag is never consulted), so a node that is loaded but not
loading is reloaded: this theorem evaluates load at such a node and shows
one payload fetch is issued and the state is rewritten (a fresh geometry is
attached), while a node that is merely loading is indeed left untouched
with zero fetches. -/
theorem C1_load_ignores_loaded_flag :
    (load { freshNode [0] with loaded := true, nodeType := 1, byteSize := 100 }
        ⟨none, true, some 1⟩).2 = 1 ∧
    (load { freshNode [0] with loaded := true, nodeType := 1, byteSize := 100 }
        ⟨none, true, some 1⟩).1.hasGeometry = true ∧
    ({ freshNode [0] with loaded := true, nodeType := 1,
                          byteSize := 100 } : HNode).hasGeometry = false ∧
    load { freshNode [0] with loading := true } ⟨none, true, some 1⟩ =
      ({ freshNode [0] with loading := true }, 0) := by
  exact ⟨rfl, rfl, rfl, rfl⟩

/-- C2 counterexample: a payload range fetch that rejects makes the load
fail (the fetch was attempted, the node does not become loaded), yet the
failed flag is still false afterwards: the catch block only clears loaded
and loading and never sets failed, contradicting the claim that every
failure sets the failed flag. -/
theorem C2_failed_flag_counterexample :
    (load { freshNode [0] with nodeType := 1, byteSize := 5 }
        ⟨none, false, none⟩).2 = 1 ∧
    (load { freshNode [0] with nodeType := 1, byteSize := 5 }
        ⟨none, false, none⟩).1.loaded = false ∧
    (load { freshNode [0] with nodeType := 1, byteSize := 5 }
        ⟨none, false, none⟩).1.loading = false ∧
    (load { freshNode [0] with nodeType := 1, byteSize := 5 }
        ⟨none, false, none⟩).1.failed = false := by
  exact ⟨rfl, rfl, rfl, rfl⟩

/-- C2 amended: a failing hierarchy fetch or a failing payload range fetch
clears loading and loaded, leaving the failed flag unchanged (in
particular never setting it to true), so the node is eligible for retry; a
hierarchy parse that fails clears the same two flags and likewise leaves
failed untouched, while any record mutations applied before the throw stay
on the node (only the flags are constrained); a worker-side decode failure
produces no completion callback at all, so the node stays with loading set
and nothing else changed. -/
theorem C2_failure_clears_loading_keeps_failed (node : HNode) (env : LoadEnv)
    (h : node.loading = false) :
    (node.nodeType = 2 → env.hierarchyBytes = none →
      load node env = ({ node with loading := false, loaded := false }, 1)) ∧
    (∀ buf, node.nodeType = 2 → env.hierarchyBytes = some buf →
      parseHierarchy { node with loading := true } buf = none →
      (load node env).1.loading = false ∧ (load node env).1.loaded = false ∧
      (load node env).1.failed = node.failed ∧ (load node env).2 = 1) ∧
    (node.nodeType ≠ 2 → node.byteSize ≠ 0 → env.payloadOk = false →
      load node env = ({ node with loading := false, loaded := false }, 1)) ∧
    (∀ buf arena n1, node.nodeType = 2 → env.hierarchyBytes = some buf →
      parseHierarchy { node with loading := true } buf = some arena →
      arena.head? = some n1 → n1.byteSize ≠ 0 → env.payloadOk = false →
      (load node env).1.failed = node.failed ∧ (load node env).1.loading = false ∧
      (load node env).1.loaded = false ∧ (load node env).2 = 2) ∧
    (node.nodeType ≠ 2 → node.byteSize ≠ 0 → env.payloadOk = true →
      env.workerResult = none →
      load node env = ({ node with loading := true }, 1)) := by
  refine ⟨?_, ?_, ?_, ?_, ?_⟩
  · intro ht hb
    simp [load, h, ht, hb]
  · intro buf ht hb hp
    rw [ht] at hp
    by_cases hdvd : 22 ∣ buf.length
    · rw [parseHierarchy, if_pos hdvd, parseRecords_eq_P] at hp
      have hP2 : (parseRecordsP [{ node with nodeType := 2, loading := true }] 0
          (hierRecords buf)).2 = false := by
        by_contra hT
        rw [Bool.not_eq_false] at hT
        rw [if_pos hT] at hp
        exact Option.noConfusion hp
      obtain ⟨c2, hc2, hf2⟩ := flags_parseRecordsP (hierRecords buf)
        [{ node with nodeType := 2, loading := true }] 0 0
        { node with nodeType := 2, loading := true } rfl
      have hhead : (parseRecordsP [{ node with nodeType := 2, loading := true }] 0
          (hierRecords buf)).1.head?.getD { node with nodeType := 2, loading := true }
          = c2 := by
        rw [List.head?_eq_getElem?, hc2]
        rfl
      have hfailed : c2.failed = node.failed := congrArg (fun t => t.2.2.1) hf2
      have hload : load node env = ({ c2 with loaded := false, loading := false }, 1) := by
        simp [load, h, ht, hb, hdvd, hP2, hhead]
      rw [hload]
      exact ⟨rfl, rfl, hfailed, rfl⟩
    · have hload : load node env = ({ node with loading := false, loaded := false }, 1) := by
        simp [load, h, ht, hb, hdvd]
      rw [hload]
      exact ⟨rfl, rfl, rfl, rfl⟩
  · intro ht hbs hp
    simp [load, h, ht, hbs, hp]
  · intro buf arena n1 ht hb hp hhead hbs hp2
    have hfailed : n1.failed = node.failed :=
      congrArg (fun t => t.2.2.1) (flags_parseHierarchy _ _ _ hp n1 hhead)
    rw [ht] at hp
    have hdvd : 22 ∣ buf.length := by
      by_contra hd
      rw [parseHierarchy, if_neg hd] at hp
      exact Option.noConfusion hp
    rw [parseHierarchy, if_pos hdvd, parseRecords_eq_P] at hp
    have hP2 : (parseRecordsP [{ node with nodeType := 2, loading := true }] 0
        (hierRecords buf)).2 = true := by
      by_contra hF
      rw [Bool.not_eq_true] at hF
      rw [hF] at hp
      simp at hp
    rw [if_pos hP2] at hp
    have hn2 : (parseRecordsP [{ node with nodeType := 2, loading := true }] 0
        (hierRecords buf)).1.head?.getD { node with nodeType := 2, loading := true }
        = n1 := by
      rw [Option.some.inj hp, hhead]
      rfl
    have hload : load node env = ({ n1 with loading := false, loaded := false }, 2) := by
      simp [load, h, ht, hb, hdvd, hP2, hn2, hbs, hp2]
    rw [hload]
    exact ⟨hfailed, rfl, rfl, rfl⟩
  · intro ht hbs hp hw
    simp [load, h, ht, hbs, hp, hw]

/-- C2 amended witness: a concrete non-proxy node whose payload fetch
rejects: loading and loaded are cleared, failed stays false, one fetch. -/
theorem C2_failure_clears_loading_keeps_failed_witness :
    load { freshNode [0] with nodeType := 1, byteSize := 5 } ⟨none, false, none⟩ =
      ({ freshNode [0] with nodeType := 1, byteSize := 5,
                            loading := false, loaded := false }, 1) := by
  have h := (C2_failure_clears_loading_keeps_failed
    { freshNode [0] with nodeType := 1, byteSize := 5 }
    ⟨none, false, none⟩ rfl).2.2.1 (by decide) (by decide) rfl
  simpa using h

/-- C10: a hierarchy buffer whose byte length is not a multiple of 22 makes
parseHierarchy fail (the JavaScript Array constructor rejects the
fractional numNodes) rather than completing, and the owning proxy node's
load then fails: loading and loaded cleared after the one hierarchy fetch.
A buffer of length 22k splits into exactly k records. -/
theorem C10_record_size_contract (buf : List ℕ) (k : ℕ) (node : HNode) (env : LoadEnv) :
    (¬ (22 ∣ buf.length) → parseHierarchy node buf = none) ∧
    (¬ (22 ∣ buf.length) → node.loading = false → node.nodeType = 2 →
      env.hierarchyBytes = some buf →
      load node env = ({ node with loading := false, loaded := false }, 1)) ∧
    (buf.length = 22 * k → (hierRecords buf).length = k) := by
  refine ⟨?_, ?_, ?_⟩
  · intro hd
    simp [parseHierarchy, hd]
  · intro hd hl ht hb
    simp [load, hl, ht, hb, hd]
  · intro hlen
    simp only [hierRecords, List.length_map, List.length_range, hlen]
    omega

/-- C10 witness: a 23-byte buffer is rejected and fails the owning node's
load; a 44-byte buffer holds exactly 2 records. -/
theorem C10_record_size_contract_witness :
    parseHierarchy (freshNode []) (List.replicate 23 0) = none ∧
    load { freshNode [] with nodeType := 2 }
        ⟨some (List.replicate 23 0), true, some 1⟩ =
      ({ freshNode [] with nodeType := 2, loading := false, loaded := false }, 1) ∧
    (hierRecords (List.replicate 44 0)).length = 2 := by
  refine ⟨(C10_record_size_contract (List.replicate 23 0) 0 (freshNode [])
      ⟨some (List.replicate 23 0), true, some 1⟩).1 (by decide),
    ?_,
    (C10_record_size_contract (List.replicate 44 0) 2 (freshNode [])
      ⟨some (List.replicate 44 0), true, some 1⟩).2.2 (by decide)⟩
  have h := (C10_record_size_contract (List.replicate 23 0) 0
    { freshNode [] with nodeType := 2 }
    ⟨some (List.replicate 23 0), true, some 1⟩).2.1 (by decide) rfl rfl rfl
  simpa using h

/-- C5: the claim says disposing the whole tree frees every node's decoded
buffers and runs its one-time handlers exactly once. OctreeGeometry.dispose
calls traverse with its optional includeSelf parameter omitted, so the
traversal stack starts empty and no node is ever visited: for every tree,
the dispose sweep visits nothing and runs zero handlers — shown here
against a tree that does hold a node with an attached geometry and one
pending handler. The per-node parts of the claim are true: a node without
a parent (or without geometry) is never disposed, and a second dispose of
any node runs zero handlers. -/
theorem C5_tree_dispose_visits_nothing :
    (∀ root : GTree, geometryDispose root = ([], 0)) ∧
    (GTree.node false false true 0
        [GTree.node true true true 1 []]).allNodes.map GTree.handlers = [0, 1] ∧
    (∀ g l h cs, nodeDispose (GTree.node g false l h cs) = (GTree.node g false l h cs, 0)) ∧
    (∀ p l h cs, (nodeDispose (GTree.node false p l h cs)).2 = 0) ∧
    (∀ g p l h cs, (nodeDispose (nodeDispose (GTree.node g p l h cs)).1).2 = 0) := by
  have ht : traverseLoop [] = [] := by
    rw [traverseLoop]
    split
    · rfl
    · next current heq => simp at heq
  refine ⟨?_, ?_, ?_, ?_, ?_⟩
  · intro root
    simp [geometryDispose, GTree.traverse, ht]
  · rw [GTree.allNodes, allNodesList, GTree.allNodes, allNodesList]
    rfl
  · intro g l h cs
    simp [nodeDispose]
  · intro p l h cs
    simp [nodeDispose]
  · intro g p l h cs
    cases g <;> cases p <;> simp [nodeDispose]

/-- The decoder input of the C3 evaluation: a single point whose stored
int32 coordinates (2, 2, 2) decode with scale 1/4 to (1/2, 1/2, 1/2)
inside a node of size 32 per axis. -/
def c3Input : DecoderInput :=
  { buffer := [2, 0, 0, 0, 2, 0, 0, 0, 2, 0, 0, 0],
    attributes := [{ name := "position", typeName := "int32", typeSize := 4,
                     byteSize := 12, rangeMin := 0, rangeMax := 0 }],
    vectors := [],
    scale := ⟨1/4, 1/4, 1/4⟩, offset := ⟨0, 0, 0⟩, min := ⟨0, 0, 0⟩,
    size := ⟨32, 32, 32⟩, numPoints := 1 }

/-- C3: the claim says each point is folded into the grid at
clamp(floor(32 coord / size), 0, 31) per axis, so the grid counts sum to
numPoints and density = numPoints / occupiedCells. The source's toIndex
never floors (and never clamps below), so the point (1/2, 1/2, 1/2) of a
size-32 node yields the fractional index 1057/2; the Uint32Array update at
a fractional index is a silent no-op, leaving every grid cell at 0 and the
occupied count at 0 even though one point was decoded (the claimed index
would have been cell 0, summing to 1). -/
theorem C3_grid_misses_fractional_index :
    (decodePosition c3Input.buffer 12 0 c3Input.scale c3Input.offset c3Input.min
        c3Input.size 1 ⟨fun _ => 0, 0⟩).1 = [1/2, 1/2, 1/2] ∧
    (decodePosition c3Input.buffer 12 0 c3Input.scale c3Input.offset c3Input.min
        c3Input.size 1 ⟨fun _ => 0, 0⟩).2.occupied = 0 ∧
    (∀ c, (decodePosition c3Input.buffer 12 0 c3Input.scale c3Input.offset c3Input.min
        c3Input.size 1 ⟨fun _ => 0, 0⟩).2.grid c = 0) ∧
    toIndex c3Input.size (1/2) (1/2) (1/2) = 1057/2 ∧
    c3Input.numPoints = 1 := by
  have hx : ∀ axis, axis < 3 → posCoord c3Input.buffer 12 0 (1/4) 0 0 0 axis = 1/2 := by
    intro axis h3
    interval_cases axis <;>
      norm_num [posCoord, getInt32, getUint32, byteAt, c3Input]
  have hidx : toIndex c3Input.size (1/2) (1/2) (1/2) = 1057/2 := by
    norm_num [toIndex, c3Input, min_def]
  have hgrid : gridIncr ⟨fun _ => 0, 0⟩ (toIndex c3Input.size (1/2) (1/2) (1/2)) =
      ⟨fun _ => 0, 0⟩ := by
    rw [hidx, gridIncr, if_neg]
    norm_num
  have hstep : decodePosition c3Input.buffer 12 0 c3Input.scale c3Input.offset
      c3Input.min c3Input.size 1 ⟨fun _ => 0, 0⟩ = ([1/2, 1/2, 1/2], ⟨fun _ => 0, 0⟩) := by
    have hr : List.range 1 = [0] := rfl
    rw [decodePosition, hr, List.foldl_cons, List.foldl_nil, posStep]
    have h0 := hx 0 (by omega)
    have h1 := hx 1 (by omega)
    have h2 := hx 2 (by omega)
    simp only [c3Input] at h0 h1 h2 hgrid ⊢
    rw [h0, h1, h2, hgrid]
    rfl
  refine ⟨?_, ?_, ?_, hidx, rfl⟩
  · rw [hstep]
  · rw [hstep]
  · intro c
    rw [hstep]

/-- The three floats the position branch writes for point j. -/
def posChunk (view : List ℕ) (bpp ao : ℕ) (scaleV offsetV minV : V3) (j : ℕ) : List ℚ :=
  [posCoord view bpp ao scaleV.x offsetV.x minV.x j 0,
   posCoord view bpp ao scaleV.y offsetV.y minV.y j 1,
   posCoord view bpp ao scaleV.z offsetV.z minV.z j 2]

theorem posStep_fst (view : List ℕ) (bpp ao : ℕ) (scaleV offsetV minV sizeV : V3)
    (l : List ℕ) (ps : List ℚ) (gs : GridState) :
    (l.foldl (posStep view bpp ao scaleV offsetV minV sizeV) (ps, gs)).1 =
      ps ++ l.flatMap (posChunk view bpp ao scaleV offsetV minV) := by
  induction l generalizing ps gs with
  | nil => simp
  | cons j t ih =>
    rw [List.foldl_cons]
    rw [show posStep view bpp ao scaleV offsetV minV sizeV (ps, gs) j =
      (ps ++ posChunk view bpp ao scaleV offsetV minV j,
       gridIncr gs (toIndex sizeV
         (posCoord view bpp ao scaleV.x offsetV.x minV.x j 0)
         (posCoord view bpp ao scaleV.y offsetV.y minV.y j 1)
         (posCoord view bpp ao scaleV.z offsetV.z minV.z j 2))) from rfl]
    rw [ih]
    simp

/-- C6: decoding N points of a schema with a position attribute at byte
cursor ao yields exactly 3N float entries, the entry for point j on each
axis being the little-endian int32 at byte j*bytesPerPoint + ao + 4*axis
times scale[axis] plus offset[axis] minus min[axis]; a schema consisting of
exactly one position-named attribute routes handleMessage through this
branch at cursor 0 with bytesPerPoint equal to that attribute's byteSize. -/
theorem C6_position_decode (view : List ℕ) (bpp ao : ℕ) (scaleV offsetV minV sizeV : V3)
    (N : ℕ) (gs : GridState) :
    (decodePosition view bpp ao scaleV offsetV minV sizeV N gs).1.length = 3 * N ∧
    (∀ j, j < N →
      (decodePosition view bpp ao scaleV offsetV minV sizeV N gs).1[3 * j]? =
        some ((getInt32 view (j * bpp + ao + 0) : ℚ) * scaleV.x + offsetV.x - minV.x) ∧
      (decodePosition view bpp ao scaleV offsetV minV sizeV N gs).1[3 * j + 1]? =
        some ((getInt32 view (j * bpp + ao + 4) : ℚ) * scaleV.y + offsetV.y - minV.y) ∧
      (decodePosition view bpp ao scaleV offsetV minV sizeV N gs).1[3 * j + 2]? =
        some ((getInt32 view (j * bpp + ao + 8) : ℚ) * scaleV.z + offsetV.z - minV.z)) ∧
    (∀ (inp : DecoderInput) (attr : PAttr), inp.attributes = [attr] →
      attr.name = "position" → inp.vectors = [] →
      ∃ o, handleMessage inp = some o ∧
        o.buffers.lookup "position" =
          some (ABuf.pos (decodePosition inp.buffer attr.byteSize 0 inp.scale
            inp.offset inp.min inp.size inp.numPoints ⟨fun _ => 0, 0⟩).1)) := by
  have hchunk : ∀ k, (posChunk view bpp ao scaleV offsetV minV k).length = 3 := fun k => rfl
  have hflat : (decodePosition view bpp ao scaleV offsetV minV sizeV N gs).1 =
      (List.range N).flatMap (posChunk view bpp ao scaleV offsetV minV) := by
    rw [decodePosition, posStep_fst]
    simp
  refine ⟨?_, ?_, ?_⟩
  · rw [hflat, flatMapRange_length _ 3 _ hchunk, Nat.mul_comm]
  · intro j hj
    rw [hflat, Nat.mul_comm 3 j]
    refine ⟨?_, ?_, ?_⟩
    · rw [show j * 3 = j * 3 + 0 from rfl,
        flatMapRange_getElem _ 3 _ _ _ hchunk hj (by omega)]
      norm_num [posChunk, posCoord]
    · rw [flatMapRange_getElem _ 3 _ _ _ hchunk hj (by omega)]
      norm_num [posChunk, posCoord]
    · rw [flatMapRange_getElem _ 3 _ _ _ hchunk hj (by omega)]
      norm_num [posChunk, posCoord]
  · intro inp attr hattrs hname hvec
    have hda : decodeAttr inp.buffer attr.byteSize inp ([], ⟨fun _ => 0, 0⟩, 0) attr =
        some ([(attr.name, ABuf.pos (decodePosition inp.buffer attr.byteSize 0 inp.scale
            inp.offset inp.min inp.size inp.numPoints ⟨fun _ => 0, 0⟩).1)],
          (decodePosition inp.buffer attr.byteSize 0 inp.scale inp.offset inp.min
            inp.size inp.numPoints ⟨fun _ => 0, 0⟩).2, 0 + attr.byteSize) := by
      rw [decodeAttr, if_pos (Or.inr hname)]
      rfl
    rw [handleMessage, hattrs, hvec]
    simp only [List.map_cons, List.map_nil, List.sum_cons, List.sum_nil, Nat.add_zero,
      List.foldl_cons, List.foldl_nil, Option.some_bind, hda, Option.map_some]
    refine ⟨_, rfl, ?_⟩
    rw [hname]
    simp [List.lookup]

/-- C6 witness: one point with stored int32 coordinates (2, 3, 4), unit
scale, zero offset, node minimum (1, 1, 1): the decoded buffer is the three
floats 1, 2, 3, and the single-attribute schema drives handleMessage into
the position branch. -/
theorem C6_position_decode_witness :
    (decodePosition [2, 0, 0, 0, 3, 0, 0, 0, 4, 0, 0, 0] 12 0 ⟨1, 1, 1⟩ ⟨0, 0, 0⟩
        ⟨1, 1, 1⟩ ⟨32, 32, 32⟩ 1 ⟨fun _ => 0, 0⟩).1.length = 3 * 1 ∧
    (decodePosition [2, 0, 0, 0, 3, 0, 0, 0, 4, 0, 0, 0] 12 0 ⟨1, 1, 1⟩ ⟨0, 0, 0⟩
        ⟨1, 1, 1⟩ ⟨32, 32, 32⟩ 1 ⟨fun _ => 0, 0⟩).1[0]? = some 1 ∧
    (decodePosition [2, 0, 0, 0, 3, 0, 0, 0, 4, 0, 0, 0] 12 0 ⟨1, 1, 1⟩ ⟨0, 0, 0⟩
        ⟨1, 1, 1⟩ ⟨32, 32, 32⟩ 1 ⟨fun _ => 0, 0⟩).1[1]? = some 2 ∧
    (decodePosition [2, 0, 0, 0, 3, 0, 0, 0, 4, 0, 0, 0] 12 0 ⟨1, 1, 1⟩ ⟨0, 0, 0⟩
        ⟨1, 1, 1⟩ ⟨32, 32, 32⟩ 1 ⟨fun _ => 0, 0⟩).1[2]? = some 3 ∧
    (∃ o, handleMessage
        { buffer := [2, 0, 0, 0, 3, 0, 0, 0, 4, 0, 0, 0],
          attributes := [{ name := "position", typeName := "int32", typeSize := 4,
                           byteSize := 12, rangeMin := 0, rangeMax := 0 }],
          vectors := [], scale := ⟨1, 1, 1⟩, offset := ⟨0, 0, 0⟩, min := ⟨1, 1, 1⟩,
          size := ⟨32, 32, 32⟩, numPoints := 1 } = some o ∧
      o.buffers.lookup "position" =
        some (ABuf.pos (decodePosition [2, 0, 0, 0, 3, 0, 0, 0, 4, 0, 0, 0] 12 0
          ⟨1, 1, 1⟩ ⟨0, 0, 0⟩ ⟨1, 1, 1⟩ ⟨32, 32, 32⟩ 1 ⟨fun _ => 0, 0⟩).1)) := by
  obtain ⟨h1, h2, h3⟩ := C6_position_decode [2, 0, 0, 0, 3, 0, 0, 0, 4, 0, 0, 0] 12 0
    ⟨1, 1, 1⟩ ⟨0, 0, 0⟩ ⟨1, 1, 1⟩ ⟨32, 32, 32⟩ 1 ⟨fun _ => 0, 0⟩
  obtain ⟨hx, hy, hz⟩ := h2 0 (by omega)
  refine ⟨h1, ?_, ?_, ?_, ?_⟩
  · exact hx.trans (by norm_num [getInt32, getUint32, byteAt])
  · exact hy.trans (by norm_num [getInt32, getUint32, byteAt])
  · exact hz.trans (by norm_num [getInt32, getUint32, byteAt])
  · exact h3 { buffer := [2, 0, 0, 0, 3, 0, 0, 0, 4, 0, 0, 0],
               attributes := [{ name := "position", typeName := "int32", typeSize := 4,
                                byteSize := 12, rangeMin := 0, rangeMax := 0 }],
               vectors := [], scale := ⟨1, 1, 1⟩, offset := ⟨0, 0, 0⟩, min := ⟨1, 1, 1⟩,
               size := ⟨32, 32, 32⟩, numPoints := 1 }
      { name := "position", typeName := "int32", typeSize := 4,
        byteSize := 12, rangeMin := 0, rangeMax := 0 } rfl rfl rfl

/-- C4 counterexample: the claim says the decoder reads every generic
scalar attribute with the getter matching its declared type, including the
int64/uint64 kinds. The getterMap has no int64/uint64 entries (they are
commented out in the source), so decoding such an attribute throws instead
of reading anything — even though the precise-buffer storage class for
int64/uint64 is indeed Float64Array. -/
theorem C4_int64_has_no_getter :
    getterFor "int64" = none ∧ getterFor "uint64" = none ∧
    typedArrayMapping "int64" = some StorageKind.float64Arr ∧
    typedArrayMapping "uint64" = some StorageKind.float64Arr ∧
    decodeGeneric [0, 0, 0, 0, 0, 0, 0, 0] 8 0
      { name := "a", typeName := "int64", typeSize := 8, byteSize := 8,
        rangeMin := 0, rangeMax := 1 } 1 = none := by
  exact ⟨rfl, rfl, rfl, rfl, rfl⟩

/-- C4 amended: for every generic scalar attribute whose declared type has
a getter (all kinds except int64/uint64), the decoder reads each point's
value with that getter and writes a 32-bit-float display value: for types
wider than 4 bytes the display value is (raw - rangeMin) * (1 / (rangeMax -
rangeMin)) with offset/scale packed alongside and the precise buffer
retaining the read values; for types of at most 4 bytes the display value
is the raw value with offset 0 and scale 1. The int64/uint64 kinds have no
getter (decode fails), though their storage class is the 64-bit float
array. -/
theorem C4_generic_attribute_decode (view : List ℕ) (bpp ao : ℕ) (attr : PAttr)
    (numPoints : ℕ) (g : Getter) (hg : getterFor attr.typeName = some g) :
    ∃ out, decodeGeneric view bpp ao attr numPoints = some out ∧
      out.display.length = numPoints ∧ out.precise.length = numPoints ∧
      ((out.offset, out.scale) =
        if 4 < attr.typeSize then (attr.rangeMin, 1 / (attr.rangeMax - attr.rangeMin))
        else (0, 1)) ∧
      (∀ j, j < numPoints →
        out.precise[j]? = some (g.read view (j * bpp + ao)) ∧
        out.display[j]? =
          some (if 4 < attr.typeSize
                then (g.read view (j * bpp + ao) - attr.rangeMin) *
                  (1 / (attr.rangeMax - attr.rangeMin))
                else g.read view (j * bpp + ao))) := by
  refine ⟨_, by rw [decodeGeneric, hg], ?_, ?_, ?_, ?_⟩
  · simp
  · simp
  · rw [genericOffsetScale]
  · intro j hj
    refine ⟨by simp [List.getElem?_map, List.getElem?_range hj], ?_⟩
    by_cases h4 : 4 < attr.typeSize
    · simp [List.getElem?_map, List.getElem?_range hj, genericOffsetScale, h4]
    · simp [List.getElem?_map, List.getElem?_range hj, genericOffsetScale, h4]

/-- C4 amended witness: a double attribute (8 bytes wide, range [0, 4])
whose single stored value is the IEEE-754 double 2.0: the precise buffer
keeps 2, the display value is (2 - 0) / 4 = 1/2, offset 0, scale 1/4. -/
theorem C4_generic_attribute_decode_witness :
    ∃ out, decodeGeneric [0, 0, 0, 0, 0, 0, 0, 64] 8 0
        { name := "a", typeName := "double", typeSize := 8, byteSize := 8,
          rangeMin := 0, rangeMax := 4 } 1 = some out ∧
      out.display[0]? = some (1/2) ∧ out.precise[0]? = some 2 ∧
      out.offset = 0 ∧ out.scale = 1/4 := by
  obtain ⟨out, hout, hdl, hpl, hos, hj⟩ := C4_generic_attribute_decode
    [0, 0, 0, 0, 0, 0, 0, 64] 8 0
    { name := "a", typeName := "double", typeSize := 8, byteSize := 8,
      rangeMin := 0, rangeMax := 4 } 1 Getter.f64 rfl
  obtain ⟨hp, hd⟩ := hj 0 (by omega)
  rw [if_pos (by decide)] at hos
  have hval : Getter.f64.read [0, 0, 0, 0, 0, 0, 0, 64] (0 * 8 + 0) = 2 := by
    norm_num [Getter.read, getFloat64, float64OfBits, getUint64, getUint32, byteAt]
  refine ⟨out, hout, ?_, ?_, ?_, ?_⟩
  · rw [hd, if_pos (by decide), hval]
    norm_num
  · rw [hp, hval]
  · have h1 := congrArg Prod.fst hos
    simpa using h1
  · have h2 := congrArg Prod.snd hos
    simp only [] at h2
    rw [h2]
    norm_num

theorem vectorWrite_succ (numPoints stride iE : ℕ) (vals : List ℚ) (off sc : ℚ)
    (buf : List ℚ) :
    vectorWrite (numPoints + 1) stride iE vals off sc buf =
      (vectorWrite numPoints stride iE vals off sc buf).set
        (numPoints * stride + iE) (vals.getD numPoints 0 / sc + off) := by
  rw [vectorWrite, vectorWrite, List.range_succ, List.foldl_append]
  rfl

theorem vectorWrite_length (numPoints stride iE : ℕ) (vals : List ℚ) (off sc : ℚ)
    (buf : List ℚ) :
    (vectorWrite numPoints stride iE vals off sc buf).length = buf.length := by
  induction numPoints with
  | zero => rfl
  | succ n ih => rw [vectorWrite_succ, List.length_set, ih]

theorem vectorWrite_miss (numPoints stride iE : ℕ) (vals : List ℚ) (off sc : ℚ)
    (buf : List ℚ) (hiE : iE < stride) (m : ℕ) (hm : m % stride ≠ iE) :
    (vectorWrite numPoints stride iE vals off sc buf)[m]? = buf[m]? := by
  induction numPoints with
  | zero => rfl
  | succ n ih =>
    have hmod : (n * stride + iE) % stride = iE := by
      rw [Nat.add_comm, Nat.add_mul_mod_self_right]
      exact Nat.mod_eq_of_lt hiE
    rw [vectorWrite_succ, List.getElem?_set_ne, ih]
    intro he
    rw [← he] at hm
    exact hm hmod

theorem vectorWrite_hit (numPoints stride iE : ℕ) (vals : List ℚ) (off sc : ℚ)
    (buf : List ℚ) (hstride : 0 < stride) (j : ℕ) (hj : j < numPoints)
    (hlen : j * stride + iE < buf.length) :
    (vectorWrite numPoints stride iE vals off sc buf)[j * stride + iE]? =
      some (vals.getD j 0 / sc + off) := by
  induction numPoints with
  | zero => omega
  | succ n ih =>
    rw [vectorWrite_succ]
    rcases Nat.lt_or_ge j n with hjn | hjn
    · rw [List.getElem?_set_ne, ih hjn]
      intro he
      have h1 : n * stride = j * stride := by omega
      have h2 : n = j := Nat.eq_of_mul_eq_mul_right hstride h1
      omega
    · have hjn2 : j = n := by omega
      subst hjn2
      rw [List.getElem?_set_self]
      rw [vectorWrite_length]
      exact hlen

theorem vecFold_spec (buffers : List (String × ABuf)) (numPoints stride : ℕ)
    (srcs : List String) (outs : List GenericOut) (buf : List ℚ) (e : ℕ)
    (hf : List.Forall₂ (fun s out => buffers.lookup s = some (ABuf.generic out)) srcs outs)
    (hstride : e + srcs.length ≤ stride)
    (hbuf : buf.length = stride * numPoints) :
    ∃ buf2,
      (srcs.foldl
        (fun acc sourceName =>
          acc.bind (fun st =>
            match buffers.lookup sourceName with
            | some (.generic out) =>
              some (vectorWrite numPoints stride st.2 out.display out.offset
                out.scale st.1, st.2 + 1)
            | _ => none))
        (some (buf, e))) = some (buf2, e + srcs.length) ∧
      buf2.length = stride * numPoints ∧
      (∀ m, m % stride < e → buf2[m]? = buf[m]?) ∧
      (∀ i out, outs[i]? = some out → ∀ j, j < numPoints →
        buf2[j * stride + (e + i)]? =
          some (out.display.getD j 0 / out.scale + out.offset)) := by
  induction hf generalizing buf e with
  | nil =>
    refine ⟨buf, by simp, hbuf, fun m _ => rfl, fun i out hout => ?_⟩
    simp at hout
  | @cons s out₀ srcs2 outs2 hso hf2 ih =>
    have hst0 : 0 < stride := by simp at hstride; omega
    have hes : e < stride := by simp at hstride; omega
    rw [List.foldl_cons, Option.some_bind, hso]
    have hbuf1 : (vectorWrite numPoints stride e out₀.display out₀.offset
        out₀.scale buf).length = stride * numPoints := by
      rw [vectorWrite_length, hbuf]
    obtain ⟨buf2, hfold, hlen2, huntouched, hnew⟩ := ih
      (vectorWrite numPoints stride e out₀.display out₀.offset out₀.scale buf)
      (e + 1) (by simp at hstride ⊢; omega) hbuf1
    refine ⟨buf2, ?_, hlen2, ?_, ?_⟩
    · rw [hfold]
      congr 2
      simp
      omega
    · intro m hm
      rw [huntouched m (by omega), vectorWrite_miss _ _ _ _ _ _ _ hes m (by omega)]
    · intro i out hout j hj
      cases i with
      | zero =>
        rw [List.getElem?_cons_zero] at hout
        cases Option.some.inj hout
        have hmod : (j * stride + (e + 0)) % stride = e := by
          rw [Nat.add_zero, Nat.add_comm, Nat.add_mul_mod_self_right]
          exact Nat.mod_eq_of_lt hes
        rw [huntouched _ (by rw [hmod]; omega), Nat.add_zero]
        exact vectorWrite_hit numPoints stride e _ _ _ buf hst0 j hj
          (by rw [hbuf]; nlinarith)
      | succ i2 =>
        rw [List.getElem?_cons_succ] at hout
        rw [show e + (i2 + 1) = (e + 1) + i2 from by omega]
        exact hnew i2 out hout j hj

/-- C7: for every VectorDescriptor whose source attributes all resolved to
generic scalar buffers, the synthesized buffer has stride srcs.length and
entry j * stride + i equal to the i-th source's display value at j with its
normalization reversed (value / scale + offset); reversing the wide-type
normalization recovers the raw value exactly when the range is
nondegenerate. -/
theorem C7_vector_synthesis (buffers : List (String × ABuf)) (numPoints : ℕ)
    (srcs : List String) (outs : List GenericOut)
    (hf : List.Forall₂ (fun s out => buffers.lookup s = some (ABuf.generic out)) srcs outs) :
    (∃ vbuf, buildVector buffers numPoints srcs = some vbuf ∧
      vbuf.length = srcs.length * numPoints ∧
      (∀ i out, outs[i]? = some out → ∀ j, j < numPoints →
        vbuf[j * srcs.length + i]? =
          some (out.display.getD j 0 / out.scale + out.offset))) ∧
    (∀ (attr : PAttr) (v : ℚ), 4 < attr.typeSize → attr.rangeMax ≠ attr.rangeMin →
      (v - (genericOffsetScale attr).1) * (genericOffsetScale attr).2 /
          (genericOffsetScale attr).2 + (genericOffsetScale attr).1 = v) := by
  constructor
  · obtain ⟨buf2, hfold, hlen2, _, hnew⟩ := vecFold_spec buffers numPoints srcs.length
      srcs outs (List.replicate (srcs.length * numPoints) 0) 0 hf (by omega) (by simp)
    refine ⟨buf2, ?_, hlen2, ?_⟩
    · rw [buildVector, hfold]
      rfl
    · intro i out hout j hj
      have := hnew i out hout j hj
      rwa [Nat.zero_add] at this
  · intro attr v h4 hne
    rw [genericOffsetScale, if_pos h4]
    have hd : attr.rangeMax - attr.rangeMin ≠ 0 := sub_ne_zero.mpr hne
    field_simp

/-- C7 witness: three scalar sources each decoding to display values
[1, 2, 3] (narrow type: offset 0, scale 1); the synthesized vector buffer is
the interleaved sequence [1, 1, 1, 2, 2, 2, 3, 3, 3]. -/
theorem C7_vector_synthesis_witness :
    ∃ vbuf, buildVector
        [("NormalX", ABuf.generic ⟨[1, 2, 3], [1, 2, 3], 0, 1⟩),
         ("NormalY", ABuf.generic ⟨[1, 2, 3], [1, 2, 3], 0, 1⟩),
         ("NormalZ", ABuf.generic ⟨[1, 2, 3], [1, 2, 3], 0, 1⟩)] 3
        ["NormalX", "NormalY", "NormalZ"] = some vbuf ∧
      vbuf.length = 9 ∧
      vbuf[0]? = some 1 ∧ vbuf[1]? = some 1 ∧ vbuf[2]? = some 1 ∧
      vbuf[3]? = some 2 ∧ vbuf[4]? = some 2 ∧ vbuf[5]? = some 2 ∧
      vbuf[6]? = some 3 ∧ vbuf[7]? = some 3 ∧ vbuf[8]? = some 3 := by
  have hf : List.Forall₂
      (fun s out => (List.lookup s
        [("NormalX", ABuf.generic ⟨[1, 2, 3], [1, 2, 3], 0, 1⟩),
         ("NormalY", ABuf.generic ⟨[1, 2, 3], [1, 2, 3], 0, 1⟩),
         ("NormalZ", ABuf.generic ⟨[1, 2, 3], [1, 2, 3], 0, 1⟩)]) =
          some (ABuf.generic out))
      ["NormalX", "NormalY", "NormalZ"]
      [⟨[1, 2, 3], [1, 2, 3], 0, 1⟩, ⟨[1, 2, 3], [1, 2, 3], 0, 1⟩,
       ⟨[1, 2, 3], [1, 2, 3], 0, 1⟩] := by
    refine List.Forall₂.cons ?_ (List.Forall₂.cons ?_ (List.Forall₂.cons ?_ List.Forall₂.nil))
    · rfl
    · rfl
    · rfl
  obtain ⟨⟨vbuf, hb, hlen, hentry⟩, _⟩ := C7_vector_synthesis _ 3 _ _ hf
  refine ⟨vbuf, hb, hlen, ?_, ?_, ?_, ?_, ?_, ?_, ?_, ?_, ?_⟩
  · exact (hentry 0 _ rfl 0 (by omega)).trans (by norm_num [List.getD])
  · exact (hentry 1 _ rfl 0 (by omega)).trans (by norm_num [List.getD])
  · exact (hentry 2 _ rfl 0 (by omega)).trans (by norm_num [List.getD])
  · exact (hentry 0 _ rfl 1 (by omega)).trans (by norm_num [List.getD])
  · exact (hentry 1 _ rfl 1 (by omega)).trans (by norm_num [List.getD])
  · exact (hentry 2 _ rfl 1 (by omega)).trans (by norm_num [List.getD])
  · exact (hentry 0 _ rfl 2 (by omega)).trans (by norm_num [List.getD])
  · exact (hentry 1 _ rfl 2 (by omega)).trans (by norm_num [List.getD])
  · exact (hentry 2 _ rfl 2 (by omega)).trans (by norm_num [List.getD])

theorem lt_of_getElem?_some {α : Type} {l : List α} {i : ℕ} {x : α}
    (h : l[i]? = some x) : i < l.length := by
  by_contra hge
  rw [List.getElem?_eq_none (by omega)] at h
  exact Option.noConfusion h

/-- mkChild depends only on the parent's name, spacing and level. -/
theorem mkChild_congr (a b : HNode) (i k : ℕ) (hn : a.name = b.name)
    (hs : a.spacing = b.spacing) (hl : a.level = b.level) :
    mkChild a i k = mkChild b i k := by
  unfold mkChild freshNode
  rw [hn, hs, hl]

theorem recUpdate_name (cur : HNode) (r : HRecord) : (recUpdate cur r).name = cur.name := by
  unfold recUpdate
  split
  · rfl
  · split <;> rfl

theorem recUpdate_spacing (cur : HNode) (r : HRecord) :
    (recUpdate cur r).spacing = cur.spacing := by
  unfold recUpdate
  split
  · rfl
  · split <;> rfl

theorem recUpdate_level (cur : HNode) (r : HRecord) : (recUpdate cur r).level = cur.level := by
  unfold recUpdate
  split
  · rfl
  · split <;> rfl

theorem recUpdate_children (cur : HNode) (r : HRecord) :
    (recUpdate cur r).children = cur.children := by
  unfold recUpdate
  split
  · rfl
  · split <;> rfl

theorem recUpdate_nodeType (cur : HNode) (r : HRecord) :
    (recUpdate cur r).nodeType = r.type := by
  unfold recUpdate
  split
  · rfl
  · split <;> rfl

theorem appendChild_length (st : List HNode) (i k : ℕ) (cur : HNode)
    (hi : st[i]? = some cur) : (appendChild st i k).length = st.length + 1 := by
  rw [appendChild, List.get?_eq_getElem?, hi]
  simp

theorem appendChild_parent (st : List HNode) (i k : ℕ) (cur : HNode)
    (hi : st[i]? = some cur) :
    (appendChild st i k)[i]? =
      some { cur with children := cur.children.set k (some st.length) } := by
  rw [appendChild, List.get?_eq_getElem?, hi]
  rw [List.getElem?_append_left (by simpa using lt_of_getElem?_some hi)]
  exact List.getElem?_set_self (by simpa using lt_of_getElem?_some hi)

theorem appendChild_other (st : List HNode) (i k j : ℕ) (cur : HNode)
    (hi : st[i]? = some cur) (hj : j ≠ i) (hjl : j < st.length) :
    (appendChild st i k)[j]? = st[j]? := by
  rw [appendChild, List.get?_eq_getElem?, hi]
  rw [List.getElem?_append_left (by simpa using hjl)]
  exact List.getElem?_set_ne (fun he => hj he.symm)

theorem appendChild_new (st : List HNode) (i k : ℕ) (cur : HNode)
    (hi : st[i]? = some cur) :
    (appendChild st i k)[st.length]? = some (mkChild cur i k) := by
  rw [appendChild, List.get?_eq_getElem?, hi]
  rw [List.getElem?_append_right (by simp)]
  simp

/-- The combined effect of the child-creation loop: one child appended per
listed bit, parent's slot k pointing at the appended child's work-list
index, other slots untouched, earlier entries untouched, every child built
from the parent's name, spacing and level. -/
theorem childLoop_spec (ks : List ℕ) : ∀ (st : List HNode) (i : ℕ) (cur : HNode),
    st[i]? = some cur → (∀ k ∈ ks, k < 8) → ks.Nodup →
    cur.children.length = 8 →
    (childLoop st i ks).length = st.length + ks.length ∧
    (∀ j, j ≠ i → j < st.length → (childLoop st i ks)[j]? = st[j]?) ∧
    (∃ cur2, (childLoop st i ks)[i]? = some cur2 ∧
      cur2.name = cur.name ∧ cur2.spacing = cur.spacing ∧ cur2.level = cur.level ∧
      cur2.children.length = 8 ∧
      (∀ k, k ∉ ks → cur2.children[k]? = cur.children[k]?) ∧
      (∀ k ∈ ks, ∃ c, cur2.children[k]? = some (some c) ∧
        st.length ≤ c ∧ c < st.length + ks.length ∧
        (childLoop st i ks)[c]? = some (mkChild cur i k))) := by
  induction ks with
  | nil =>
    intro st i cur hi _ _ hch
    refine ⟨by simp [childLoop], fun j _ _ => rfl,
      cur, by simpa [childLoop] using hi, rfl, rfl, rfl, hch, fun k _ => rfl, ?_⟩
    intro k hk
    exact absurd hk (List.not_mem_nil k)
  | cons k ks ih =>
    intro st i cur hi hk8 hnd hch
    have hil : i < st.length := lt_of_getElem?_some hi
    have hk8h : k < 8 := hk8 k (List.mem_cons_self k ks)
    have hknot : k ∉ ks := (List.nodup_cons.mp hnd).1
    have hnd2 : ks.Nodup := (List.nodup_cons.mp hnd).2
    set cur1 : HNode := { cur with children := cur.children.set k (some st.length) }
      with hcur1
    have hst1i : (appendChild st i k)[i]? = some cur1 := appendChild_parent st i k cur hi
    have hlen1 : (appendChild st i k).length = st.length + 1 :=
      appendChild_length st i k cur hi
    obtain ⟨hlen2, hother2, cur2, hcur2, hname2, hspace2, hlevel2, hch2, hmiss2, hhit2⟩ :=
      ih (appendChild st i k) i cur1 hst1i
        (fun k2 hk2 => hk8 k2 (List.mem_cons_of_mem k hk2)) hnd2
        (by rw [hcur1]; simpa using hch)
    rw [childLoop]
    have hlc : (k :: ks).length = ks.length + 1 := List.length_cons k ks
    refine ⟨by rw [hlen2, hlen1]; omega, ?_, cur2, hcur2,
      hname2.trans rfl, hspace2.trans rfl, hlevel2.trans rfl, hch2, ?_, ?_⟩
    · intro j hj hjl
      rw [hother2 j hj (by omega), appendChild_other st i k j cur hi hj hjl]
    · intro k2 hk2
      have hk2ne : k2 ∉ ks := fun hmem => hk2 (List.mem_cons_of_mem k hmem)
      have hk2nk : k2 ≠ k := fun he => hk2 (he ▸ List.mem_cons_self k ks)
      rw [hmiss2 k2 hk2ne, hcur1]
      exact List.getElem?_set_ne (fun he => hk2nk he.symm)
    · intro k2 hk2
      rcases List.mem_cons.mp hk2 with he | hmem
      · subst he
        have hslot : cur2.children[k2]? = some (some st.length) := by
          rw [hmiss2 k2 hknot, hcur1]
          exact List.getElem?_set_self (by omega)
        refine ⟨st.length, hslot, Nat.le_refl _, by omega, ?_⟩
        rw [hother2 st.length (by omega) (by omega)]
        exact appendChild_new st i k2 cur hi
      · obtain ⟨c, hslot, hcl, hcu, hval⟩ := hhit2 k2 hmem
        refine ⟨c, hslot, by omega, by rw [hlen1] at hcu; omega, ?_⟩
        rw [hval]
        exact congrArg some (mkChild_congr cur1 cur i k2 rfl rfl rfl)

/-- The root node as OctreeLoader.load creates it before the first
hierarchy expansion: a proxy with empty path. -/
def rootProxy : HNode :=
  { freshNode [] with nodeType := 2, spacing := 1 }

/-- C8: processing a non-proxy hierarchy record with an 8-bit child mask
creates exactly one child per set bit — the work list grows by the number
of set bits, the parent's child slot at each set bit position holds the
index of a freshly appended node whose name is the parent's name extended
by the bit digit, whose spacing is half the parent's, whose level is one
deeper and whose parent link points back, and clear bits leave their slots
untouched. In particular, a buffer of one leaf record with mask 0 yields a
single-node tree, and a record with mask 0b11 creates exactly 2 children
at slots 0 and 1. -/
theorem C8_hierarchy_children (st : List HNode) (i : ℕ) (cur : HNode) (r : HRecord)
    (hi : st[i]? = some cur) (ht : r.type ≠ 2) (hmask : r.childMask < 256)
    (hch : cur.children.length = 8) :
    (∃ st2, applyRecord st i r = some st2 ∧
      st2.length = st.length + (maskBits r.childMask).length ∧
      (∀ k, r.childMask.testBit k →
        ∃ n2 c, st2[i]? = some n2 ∧ n2.children[k]? = some (some c) ∧
          st.length ≤ c ∧ c < st2.length ∧ st2[c]? = some (mkChild cur i k)) ∧
      (∀ k, ¬ r.childMask.testBit k →
        ∃ n2, st2[i]? = some n2 ∧ n2.children[k]? = cur.children[k]?)) ∧
    (∃ arena, parseHierarchy rootProxy (List.replicate 22 0) = some arena ∧
      arena.length = 1) ∧
    (∃ arena n0, parseHierarchy rootProxy (1 :: 3 :: List.replicate 20 0) = some arena ∧
      arena.length = 3 ∧ arena[0]? = some n0 ∧
      (∃ c, n0.children[0]? = some (some c) ∧ 1 ≤ c ∧ c < 3 ∧
        arena[c]? = some (mkChild rootProxy 0 0)) ∧
      (∃ c, n0.children[1]? = some (some c) ∧ 1 ≤ c ∧ c < 3 ∧
        arena[c]? = some (mkChild rootProxy 0 1)) ∧
      (mkChild rootProxy 0 0).name = rootProxy.name ++ [0] ∧
      (mkChild rootProxy 0 0).spacing = rootProxy.spacing / 2 ∧
      (mkChild rootProxy 0 0).level = rootProxy.level + 1 ∧
      (mkChild rootProxy 0 0).parent = some 0 ∧
      (mkChild rootProxy 0 1).name = rootProxy.name ++ [1]) := by
  have hgen : ∀ (st : List HNode) (i : ℕ) (cur : HNode) (r : HRecord),
      st[i]? = some cur → r.type ≠ 2 → r.childMask < 256 → cur.children.length = 8 →
      ∃ st2, applyRecord st i r = some st2 ∧
        st2.length = st.length + (maskBits r.childMask).length ∧
        (∀ k, r.childMask.testBit k →
          ∃ n2 c, st2[i]? = some n2 ∧ n2.children[k]? = some (some c) ∧
            st.length ≤ c ∧ c < st2.length ∧ st2[c]? = some (mkChild cur i k)) ∧
        (∀ k, ¬ r.childMask.testBit k →
          ∃ n2, st2[i]? = some n2 ∧ n2.children[k]? = cur.children[k]?) := by
    clear hi ht hch hmask st i cur r
    intro st i cur r hi ht hmask hch
    have hil : i < st.length := lt_of_getElem?_some hi
    have hst1 : (st.set i (recUpdate cur r))[i]? = some (recUpdate cur r) :=
      List.getElem?_set_self (by omega)
    have hk8 : ∀ k ∈ maskBits r.childMask, k < 8 := by
      intro k hk
      exact List.mem_range.mp (List.mem_of_mem_filter hk)
    have hnd : (maskBits r.childMask).Nodup :=
      List.Nodup.filter _ (List.nodup_range 8)
    obtain ⟨hlen, hother, cur2, hcur2, _, _, _, _, hmiss, hhit⟩ :=
      childLoop_spec (maskBits r.childMask) (st.set i (recUpdate cur r)) i
        (recUpdate cur r) hst1 hk8 hnd (by rw [recUpdate_children]; exact hch)
    have hnt : (recUpdate cur r).nodeType ≠ 2 := by
      rw [recUpdate_nodeType]; exact ht
    have happ : applyRecord st i r =
        some (childLoop (st.set i (recUpdate cur r)) i (maskBits r.childMask)) := by
      rw [applyRecord, List.get?_eq_getElem?, hi]
      dsimp only
      rw [if_neg hnt]
    refine ⟨_, happ, by rw [hlen]; simp, ?_, ?_⟩
    · intro k hbit
      have hklt : k < 8 := by
        by_contra hge
        rw [Nat.testBit_eq_false_of_lt (by
          calc r.childMask < 256 := hmask
            _ ≤ 2 ^ k := by
              calc (256 : ℕ) = 2 ^ 8 := rfl
                _ ≤ 2 ^ k := Nat.pow_le_pow_right (by omega) (by omega))] at hbit
        exact Bool.noConfusion hbit
      have hkmem : k ∈ maskBits r.childMask := by
        rw [maskBits, List.mem_filter]
        exact ⟨List.mem_range.mpr hklt, by simpa using hbit⟩
      obtain ⟨c, hslot, hcl, hcu, hval⟩ := hhit k hkmem
      refine ⟨cur2, c, hcur2, hslot, by simpa using hcl, ?_, ?_⟩
      · rw [hlen]
        simpa using hcu
      · rw [hval]
        exact congrArg some (mkChild_congr (recUpdate cur r) cur i k
          (recUpdate_name cur r) (recUpdate_spacing cur r) (recUpdate_level cur r))
    · intro k hbit
      have hkmem : k ∉ maskBits r.childMask := by
        rw [maskBits, List.mem_filter]
        intro hmem
        exact hbit (by simpa using hmem.2)
      refine ⟨cur2, hcur2, ?_⟩
      rw [hmiss k hkmem, recUpdate_children]
  refine ⟨hgen st i cur r hi ht hmask hch, ?_, ?_⟩
  · have hr : hierRecords (List.replicate 22 0) =
        [{ type := 0, childMask := 0, numPoints := 0, byteOffset := 0,
           byteSize := 0 }] := by decide
    obtain ⟨st2, happly, hlen, _, _⟩ := hgen [rootProxy] 0 rootProxy
      { type := 0, childMask := 0, numPoints := 0, byteOffset := 0, byteSize := 0 }
      rfl (by decide) (by decide) (by decide)
    refine ⟨st2, ?_, ?_⟩
    · rw [parseHierarchy, if_pos (by decide), hr]
      have hun : parseRecords [rootProxy] 0
          [{ type := 0, childMask := 0, numPoints := 0, byteOffset := 0,
             byteSize := 0 }] =
          (applyRecord [rootProxy] 0
            { type := 0, childMask := 0, numPoints := 0, byteOffset := 0,
              byteSize := 0 }).bind (fun st1 => parseRecords st1 1 []) := rfl
      rw [hun, happly]
      rfl
    · rw [hlen]
      decide
  · have hr : hierRecords (1 :: 3 :: List.replicate 20 0) =
        [{ type := 1, childMask := 3, numPoints := 0, byteOffset := 0,
           byteSize := 0 }] := by decide
    obtain ⟨st2, happly, hlen, hhit, _⟩ := hgen [rootProxy] 0 rootProxy
      { type := 1, childMask := 3, numPoints := 0, byteOffset := 0, byteSize := 0 }
      rfl (by decide) (by decide) (by decide)
    have hlen3 : st2.length = 3 := by
      rw [hlen]
      decide
    obtain ⟨n2a, c0, hn2a, hslot0, hcl0, hcu0, hv0⟩ := hhit 0 (by decide)
    obtain ⟨n2b, c1, hn2b, hslot1, hcl1, hcu1, hv1⟩ := hhit 1 (by decide)
    have hab : n2b = n2a := by
      rw [hn2a] at hn2b
      exact (Option.some.inj hn2b).symm
    refine ⟨st2, n2a, ?_, hlen3, hn2a,
      ⟨c0, hslot0, by simpa using hcl0, by omega, hv0⟩,
      ⟨c1, by rw [← hab]; exact hslot1, by simpa using hcl1, by omega, hv1⟩,
      rfl, rfl, rfl, rfl, rfl⟩
    rw [parseHierarchy, if_pos (by decide), hr]
    have hun : parseRecords [rootProxy] 0
        [{ type := 1, childMask := 3, numPoints := 0, byteOffset := 0,
           byteSize := 0 }] =
        (applyRecord [rootProxy] 0
          { type := 1, childMask := 3, numPoints := 0, byteOffset := 0,
            byteSize := 0 }).bind (fun st1 => parseRecords st1 1 []) := rfl
    rw [hun, happly]
    rfl

/-- C8 witness: the general bit-to-child correspondence instantiated on a
concrete record (type 1, mask 0b11) applied to the root proxy: the work
list grows to 1 + popcount(3) nodes and slot 0 points at a fresh child
built from the parent. -/
theorem C8_hierarchy_children_witness :
    ∃ st2, applyRecord [rootProxy] 0
        { type := 1, childMask := 3, numPoints := 0, byteOffset := 0,
          byteSize := 0 } = some st2 ∧
      st2.length = 1 + (maskBits 3).length ∧
      (∃ n2 c, st2[0]? = some n2 ∧ n2.children[0]? = some (some c) ∧
        1 ≤ c ∧ c < st2.length ∧ st2[c]? = some (mkChild rootProxy 0 0)) := by
  obtain ⟨st2, ha, hl, hhit, _⟩ := (C8_hierarchy_children [rootProxy] 0 rootProxy
    { type := 1, childMask := 3, numPoints := 0, byteOffset := 0, byteSize := 0 }
    rfl (by decide) (by decide) (by decide)).1
  obtain ⟨n2, c, h1, h2, h3, h4, h5⟩ := hhit 0 (by decide)
  exact ⟨st2, ha, by simpa using hl, n2, c, h1, h2, by simpa using h3, h4, h5⟩

end ThreeLoader
